import Mathlib

/-!
Shallow embedding of the trace cursor / stepping engine of
`sil-debug-web/web/src/app.ts`.

Modelling conventions:
* JS numbers holding indices, program counters and call depths are `Int`
  (all arithmetic is small-integer, no overflow in the source).
* Nullable JS values are `Option`.
* `span.end_line || line` style truthiness on line numbers is modelled with
  `Nat` where `0` plays the role of a falsy/absent value, exactly as the
  code treats it.
* The mutable `state` object is threaded explicitly: each operation takes an
  `AppState` and returns the updated `AppState`.
* DOM reads/writes in `updateEditorDecorations` are out of scope; the
  derived tint data `(fnTintSpan, fnTintKind)` that the function stores is
  modelled as the function's return value.
-/

namespace SilDebug

/-- Source span attached to a mapping; `endLine = 0` models an absent
`end_line` (the code uses `span.end_line || line`). -/
structure Span where
  line : Nat
  endLine : Nat
  deriving Repr, DecidableEq, Inhabited

/-- Step mapping metadata (`step.mapping`): optional span, frame id, depth. -/
structure Mapping where
  span : Option Span
  frameId : Option Int
  callDepth : Option Int
  deriving Repr, DecidableEq, Inhabited

/-- One trace step, with the fields the cursor/stepper engine reads. -/
structure Step where
  pc : Int
  callDepth : Option Int
  frameId : Option Int
  isExecuting : Bool
  mapping : Option Mapping
  deriving Repr, DecidableEq, Inhabited

/-- A trace as received from the server: `opcode_steps`, `source_steps`
and the fallback unified `steps` array, each possibly absent. -/
structure Trace where
  opcode_steps : Option (List Step)
  source_steps : Option (List Step)
  steps : Option (List Step)
  deriving Repr, DecidableEq, Inhabited

inductive DbgMode
  | source
  | opcode
  deriving Repr, DecidableEq, Inhabited

/-- The `state.dbg` cursor record (the fields the stepping engine uses). -/
@[ext]
structure Dbg where
  mode : DbgMode
  sourceStep : Int
  opcodeStep : Int
  breakpoints : List Nat
  deriving Repr, DecidableEq, Inhabited

/-- The slice of the global `state` the cursor engine touches. -/
@[ext]
structure AppState where
  trace : Option Trace
  dbg : Dbg
  deriving Repr, DecidableEq, Inhabited

/-- `clamp(n, lo, hi) = Math.max(lo, Math.min(hi, n))`. -/
def clamp (n lo hi : Int) : Int := max lo (min hi n)

/-- JS array indexing `l[i]`: `undefined` when out of range or negative. -/
def jsIndex (l : List Step) (i : Int) : Option Step :=
  if i < 0 then none else l[i.toNat]?

/-- `getOpcodeSteps(trace)`. -/
def getOpcodeSteps : Option Trace → List Step
  | none => []
  | some tr =>
    match tr.opcode_steps with
    | some l => if l.isEmpty then tr.steps.getD [] else l
    | none => tr.steps.getD []

/-- `getSourceSteps(trace)`. -/
def getSourceSteps : Option Trace → List Step
  | none => []
  | some tr =>
    match tr.source_steps with
    | some l => if l.isEmpty then tr.steps.getD [] else l
    | none => tr.steps.getD []

/-- `getActiveSteps(state)`. -/
def getActiveSteps (st : AppState) : List Step :=
  match st.trace with
  | none => []
  | some _ =>
    if st.dbg.mode = DbgMode.opcode then getOpcodeSteps st.trace
    else getSourceSteps st.trace

/-- `frameIdFromStep(step)` (argument may be `undefined`). -/
def frameIdFromStep : Option Step → Option Int
  | none => none
  | some s =>
    match s.frameId with
    | some f => some f
    | none =>
      match s.mapping with
      | some m => m.frameId
      | none => none

/-- `stepDepth(step)` (argument may be `undefined`). -/
def stepDepth : Option Step → Int
  | none => 0
  | some s =>
    match s.callDepth with
    | some d => d
    | none =>
      match s.mapping with
      | some m => m.callDepth.getD 0
      | none => 0

/-- `mappingLine(mapping)`: the raw `span.line`, or null without a span. -/
def mappingLine : Option Mapping → Option Nat
  | none => none
  | some m => m.span.map (fun sp => sp.line)

/-- The scan loop of `sourceIndexFromOpcodeIndex`: walk the pc list,
stop at the first pc exceeding the target, remember the last index seen. -/
def scanBest : List Int → Int → Nat → Nat → Nat
  | [], _, _, best => best
  | p :: rest, target, i, _best' =>
    if target < p then _best' else scanBest rest target (i + 1) i

/-- `sourceIndexFromOpcodeIndex(state, opcodeIndex)`. -/
def sourceIndexFromOpcodeIndex (st : AppState) (opcodeIndex : Int) : Nat :=
  match st.trace with
  | none => 0
  | some tr =>
    let opcodeSteps := getOpcodeSteps (some tr)
    let sourceSteps := getSourceSteps (some tr)
    if sourceSteps.isEmpty then 0
    else
      let opSnap := jsIndex opcodeSteps
        (clamp opcodeIndex 0 (max 0 ((opcodeSteps.length : Int) - 1)))
      let targetPc := match opSnap with | some s => s.pc | none => 0
      scanBest (sourceSteps.map Step.pc) targetPc 0 0

/-- `syncOpcodeFromSource(state)`. -/
def syncOpcodeFromSource (st : AppState) : AppState :=
  match st.trace with
  | none => st
  | some tr =>
    let opcodeSteps := getOpcodeSteps (some tr)
    let sourceSteps := getSourceSteps (some tr)
    if opcodeSteps.isEmpty || sourceSteps.isEmpty then st
    else
      let srcIdx := clamp st.dbg.sourceStep 0 ((sourceSteps.length : Int) - 1)
      let snap := jsIndex sourceSteps srcIdx
      let pc := match snap with | some s => s.pc | none => 0
      { st with dbg := { st.dbg with
          opcodeStep := clamp pc 0 ((opcodeSteps.length : Int) - 1) } }

/-- `syncSourceFromOpcode(state)`. -/
def syncSourceFromOpcode (st : AppState) : AppState :=
  match st.trace with
  | none => st
  | some tr =>
    let sourceSteps := getSourceSteps (some tr)
    if sourceSteps.isEmpty then st
    else { st with dbg := { st.dbg with
        sourceStep := (sourceIndexFromOpcodeIndex st st.dbg.opcodeStep : Int) } }

/-- `sourceStepIntoIndex(steps, idx)`. -/
def sourceStepIntoIndex (steps : List Step) (idx : Int) : Int :=
  clamp (idx + 1) 0 (max 0 ((steps.length : Int) - 1))

/-- The forward scan `for (let i = idx+1; i < steps.length; i++)`,
run on the dropped suffix and reporting absolute indices. -/
def findIdxFrom (p : Step → Bool) : List Step → Nat → Option Nat
  | [], _ => none
  | s :: rest, i => if p s then some i else findIdxFrom p rest (i + 1)

/-- The shared shape of the forward scans in `sourceStepOverIndex`,
`sourceStepOutIndex` and `continueToBreakpoint`: first index after `i`
satisfying `p`, else the final index `len - 1`. -/
def scanForward (p : Step → Bool) (steps : List Step) (i : Nat) : Nat :=
  (findIdxFrom p (steps.drop (i + 1)) (i + 1)).getD (steps.length - 1)

/-- `sourceStepOverIndex(steps, idx)` (call sites pass a clamped index). -/
def sourceStepOverIndex (steps : List Step) (idx : Nat) : Nat :=
  let d := stepDepth steps[idx]?
  scanForward (fun s => decide (stepDepth (some s) ≤ d)) steps idx

/-- `sourceStepOutIndex(steps, idx)` (call sites pass a clamped index). -/
def sourceStepOutIndex (steps : List Step) (idx : Nat) : Nat :=
  let d := stepDepth steps[idx]?
  scanForward (fun s => decide (stepDepth (some s) < d)) steps idx

/-- `resetDbgCursor(state)`. -/
def resetDbgCursor (st : AppState) : AppState :=
  match st.trace with
  | none => st
  | some tr =>
    let sourceSteps := getSourceSteps (some tr)
    let opcodeSteps := getOpcodeSteps (some tr)
    let st1 := { st with dbg := { st.dbg with
        sourceStep := 0
        opcodeStep := 0
        mode := if sourceSteps.isEmpty then DbgMode.opcode else DbgMode.source } }
    if sourceSteps.isEmpty || opcodeSteps.isEmpty then st1
    else syncOpcodeFromSource st1

/-- Trace installation as performed by `runTrace`:
`state.trace = trace; ...; resetDbgCursor(state);` (breakpoints untouched). -/
def loadTrace (st : AppState) (tr : Trace) : AppState :=
  resetDbgCursor { st with trace := some tr }

/-- `getActiveStepIndex(state, steps)`. -/
def getActiveStepIndex (st : AppState) (steps : List Step) : Int :=
  let mx := max 0 ((steps.length : Int) - 1)
  if st.dbg.mode = DbgMode.opcode then clamp st.dbg.opcodeStep 0 mx
  else clamp st.dbg.sourceStep 0 mx

/-- `setActiveStepIndex(state, idx)`. -/
def setActiveStepIndex (st : AppState) (idx : Int) : AppState :=
  if st.dbg.mode = DbgMode.opcode then
    { st with dbg := { st.dbg with opcodeStep := idx } }
  else { st with dbg := { st.dbg with sourceStep := idx } }

/-- `activeSnapshot(state)`: returns the active step and the state after the
write-back of the clamped index. -/
def activeSnapshot (st : AppState) : Option Step × AppState :=
  let steps := getActiveSteps st
  if steps.isEmpty then (none, st)
  else
    let idx := getActiveStepIndex st steps
    let st1 := setActiveStepIndex st idx
    (jsIndex steps idx, st1)

/-- `stepIntoSource(state)`. -/
def stepIntoSource (st : AppState) : AppState :=
  match st.trace with
  | none => st
  | some tr =>
    let sourceSteps := getSourceSteps (some tr)
    if sourceSteps.isEmpty then st
    else
      let st1 := if st.dbg.mode = DbgMode.opcode then syncSourceFromOpcode st else st
      let st2 := { st1 with dbg := { st1.dbg with mode := DbgMode.source } }
      let idx := clamp st2.dbg.sourceStep 0 ((sourceSteps.length : Int) - 1)
      let st3 := { st2 with dbg := { st2.dbg with
          sourceStep := sourceStepIntoIndex sourceSteps idx } }
      syncOpcodeFromSource st3

/-- `stepOverSource(state)`. -/
def stepOverSource (st : AppState) : AppState :=
  match st.trace with
  | none => st
  | some tr =>
    let sourceSteps := getSourceSteps (some tr)
    if sourceSteps.isEmpty then st
    else
      let st1 := if st.dbg.mode = DbgMode.opcode then syncSourceFromOpcode st else st
      let st2 := { st1 with dbg := { st1.dbg with mode := DbgMode.source } }
      let idx := clamp st2.dbg.sourceStep 0 ((sourceSteps.length : Int) - 1)
      let st3 := { st2 with dbg := { st2.dbg with
          sourceStep := (sourceStepOverIndex sourceSteps idx.toNat : Int) } }
      syncOpcodeFromSource st3

/-- `stepOutSource(state)`. -/
def stepOutSource (st : AppState) : AppState :=
  match st.trace with
  | none => st
  | some tr =>
    let sourceSteps := getSourceSteps (some tr)
    if sourceSteps.isEmpty then st
    else
      let st1 := if st.dbg.mode = DbgMode.opcode then syncSourceFromOpcode st else st
      let st2 := { st1 with dbg := { st1.dbg with mode := DbgMode.source } }
      let idx := clamp st2.dbg.sourceStep 0 ((sourceSteps.length : Int) - 1)
      let st3 := { st2 with dbg := { st2.dbg with
          sourceStep := (sourceStepOutIndex sourceSteps idx.toNat : Int) } }
      syncOpcodeFromSource st3

/-- `stepOpcode(state, delta)`. -/
def stepOpcode (st : AppState) (delta : Int) : AppState :=
  match st.trace with
  | none => st
  | some tr =>
    let opcodeSteps := getOpcodeSteps (some tr)
    if opcodeSteps.isEmpty then st
    else
      let st1 := if st.dbg.mode ≠ DbgMode.opcode then syncOpcodeFromSource st else st
      let st2 := { st1 with dbg := { st1.dbg with mode := DbgMode.opcode } }
      let idx := clamp (st2.dbg.opcodeStep + delta) 0 ((opcodeSteps.length : Int) - 1)
      let st3 := { st2 with dbg := { st2.dbg with opcodeStep := idx } }
      syncSourceFromOpcode st3

/-- The loop-body test of `continueToBreakpoint`: an executing step whose
truthy mapped line is in the breakpoint set. -/
def bpHit (bps : List Nat) (s : Step) : Bool :=
  s.isExecuting &&
    (match mappingLine s.mapping with
     | some l => decide (l ≠ 0) && decide (l ∈ bps)
     | none => false)

/-- `continueToBreakpoint(state)`: result index, plus the state (the
function may resync the source index when invoked in opcode mode). -/
def continueToBreakpoint (st : AppState) : Nat × AppState :=
  match st.trace with
  | none => (0, st)
  | some tr =>
    let sourceSteps := getSourceSteps (some tr)
    if sourceSteps.isEmpty then (0, st)
    else
      let st1 := if st.dbg.mode = DbgMode.opcode then syncSourceFromOpcode st else st
      let start := clamp st1.dbg.sourceStep 0 ((sourceSteps.length : Int) - 1)
      let last := sourceSteps.length - 1
      if st1.dbg.breakpoints.isEmpty then (last, st1)
      else (scanForward (bpHit st1.dbg.breakpoints) sourceSteps start.toNat, st1)

/-- `continueExecution(state)`. -/
def continueExecution (st : AppState) : AppState :=
  match st.trace with
  | none => st
  | some tr =>
    let sourceSteps := getSourceSteps (some tr)
    if sourceSteps.isEmpty then
      let opcodeSteps := getOpcodeSteps (some tr)
      { st with dbg := { st.dbg with
          mode := DbgMode.opcode
          opcodeStep := max 0 ((opcodeSteps.length : Int) - 1) } }
    else
      let st1 := { st with dbg := { st.dbg with mode := DbgMode.source } }
      let r := continueToBreakpoint st1
      let st2 := { r.2 with dbg := { r.2.dbg with sourceStep := (r.1 : Int) } }
      syncOpcodeFromSource st2

/-- Derived frame span `{startLine, endLine}`. -/
structure FrameSpan where
  startLine : Nat
  endLine : Nat
  deriving Repr, DecidableEq, Inhabited

/-- `Number(mapping.span.end_line || line)`. -/
def effectiveEnd (sp : Span) : Nat :=
  if sp.endLine = 0 then sp.line else sp.endLine

/-- The accumulator loop of `frameSpanForFrame` (startLine, endLine both
start at 0, the falsy sentinel). -/
def frameSpanFold : List Step → Int → Nat → Nat → Nat × Nat
  | [], _, s, e => (s, e)
  | st :: rest, t, s, e =>
    match st.mapping with
    | none => frameSpanFold rest t s e
    | some m =>
      match m.span with
      | none => frameSpanFold rest t s e
      | some sp =>
        if frameIdFromStep (some st) = some t then
          if sp.line = 0 then frameSpanFold rest t s e
          else
            frameSpanFold rest t
              (if s = 0 || sp.line < s then sp.line else s)
              (if e = 0 || e < effectiveEnd sp then effectiveEnd sp else e)
        else frameSpanFold rest t s e

/-- `frameSpanForFrame(steps, frameId)`. -/
def frameSpanForFrame (steps : List Step) (frameId : Option Int) : Option FrameSpan :=
  match frameId with
  | none => none
  | some t =>
    let p := frameSpanFold steps t 0 0
    if p.1 = 0 || p.2 = 0 then none else some ⟨p.1, p.2⟩

inductive TintKind
  | pass
  | fail
  deriving Repr, DecidableEq, Inhabited

/-- The tint data `(state.dbg.fnTintSpan, state.dbg.fnTintKind)` written by
`updateEditorDecorations(state, snap, fnTintKind)` (DOM writes elided).
Both slots are cleared up front and set only when a frame span is found. -/
def updateEditorDecorationsTint (st : AppState) (snap : Option Step)
    (k : Option TintKind) : Option FrameSpan × Option TintKind :=
  match snap with
  | none => (none, none)
  | some sp =>
    match k, st.trace with
    | some kind, some _ =>
      let target := if kind = TintKind.pass then some 0 else frameIdFromStep (some sp)
      match frameSpanForFrame (getSourceSteps st.trace) target with
      | none => (none, none)
      | some fs => (some fs, some kind)
    | _, _ => (none, none)

/-- Pc of the step at index `j` (0 out of range), via the mapped pc list. -/
def pcAt (l : List Step) (j : Nat) : Int :=
  (l.map Step.pc).getD j 0

/-- Call depth of the step at index `j`, as the loops read it. -/
def depthAt (l : List Step) (j : Nat) : Int :=
  stepDepth l[j]?

/-- Length of the leading block of pcs that do not exceed the target:
the portion of the list that the scan loop actually visits. -/
def lePrefixLen : List Int → Int → Nat
  | [], _ => 0
  | p :: rest, t => if t < p then 0 else lePrefixLen rest t + 1

/-- The state every source-granularity operation hands to the final
`syncOpcodeFromSource` call: mode forced to source, a new source index. -/
def withSrcIdx (st : AppState) (n : Nat) : AppState :=
  { st with dbg := { st.dbg with mode := DbgMode.source, sourceStep := (n : Int) } }

/-- The state `stepOpcode` hands to the final `syncSourceFromOpcode` call:
mode forced to opcode, a new opcode index. -/
def withOpIdx (st : AppState) (o : Int) : AppState :=
  { st with dbg := { st.dbg with mode := DbgMode.opcode, opcodeStep := o } }

/-- Pc of the clamped opcode step at index `i`: the synchronization target
used by `sourceIndexFromOpcodeIndex`. -/
def opcodeTargetPc (tr : Trace) (i : Int) : Int :=
  pcAt (getOpcodeSteps (some tr))
    (clamp i 0 (((getOpcodeSteps (some tr)).length : Int) - 1)).toNat

/-- The predicate deciding whether `frameSpanForFrame` counts a step for
target frame `t`: it has a mapping with a span, its frame id matches, and
its line is truthy. -/
def stepMatchesFrame (t : Int) (s : Step) : Bool :=
  match s.mapping with
  | none => false
  | some m =>
    match m.span with
    | none => false
    | some sp => decide (frameIdFromStep (some s) = some t) && decide (sp.line ≠ 0)

/-- `Number(mapping.span.line || 0)` as read by `frameSpanForFrame`. -/
def stepLine (s : Step) : Nat :=
  match s.mapping with
  | none => 0
  | some m =>
    match m.span with
    | none => 0
    | some sp => sp.line

/-- `Number(mapping.span.end_line || line)` as read by `frameSpanForFrame`. -/
def stepEndLine (s : Step) : Nat :=
  match s.mapping with
  | none => 0
  | some m =>
    match m.span with
    | none => 0
    | some sp => effectiveEnd sp

/-- The source-sequence steps that carry the (optional) target frame id. -/
def matchingOf (tr : Trace) : Option Int → List Step
  | none => []
  | some t => (getSourceSteps (some tr)).filter (stepMatchesFrame t)

/-- A continue-relevant hit at index `k` of `l`: the step is executing and
its mapped line belongs to the breakpoint set (the claim's wording). -/
def isHit (bps : List Nat) (l : List Step) (k : Nat) : Prop :=
  (l.getD k default).isExecuting = true ∧
    ∃ L, mappingLine (l.getD k default).mapping = some L ∧ L ∈ bps

/-! ### Concrete traces and states used to instantiate the theorems -/

/-- A bare step with the given pc. -/
def wStep (p : Int) : Step := ⟨p, none, none, true, none⟩

/-- A step with the given call depth. -/
def wDepthStep (d : Int) : Step := ⟨0, some d, none, true, none⟩

/-- An executing step mapped to the given 1-based line. -/
def wLineStep (ln : Nat) : Step := ⟨0, none, none, true, some ⟨some ⟨ln, 0⟩, none, none⟩⟩

/-- A step owned by frame `f` spanning lines `ln..e`. -/
def wFrameStep (f : Int) (ln e : Nat) : Step :=
  ⟨0, none, some f, true, some ⟨some ⟨ln, e⟩, none, none⟩⟩

/-- Ten opcode steps with pc equal to index, three source steps at
pcs 0, 4, 8 (the worked scenario of the documentation). -/
def demoTrace : Trace :=
  ⟨some [wStep 0, wStep 1, wStep 2, wStep 3, wStep 4, wStep 5, wStep 6,
    wStep 7, wStep 8, wStep 9],
   some [wStep 0, wStep 4, wStep 8], none⟩

def demoState : AppState := ⟨some demoTrace, ⟨DbgMode.source, 0, 0, []⟩⟩

/-- The depth scenario `[0, 1, 1, 2, 0]`. -/
def depthSteps : List Step :=
  [wDepthStep 0, wDepthStep 1, wDepthStep 1, wDepthStep 2, wDepthStep 0]

def depthTrace : Trace := ⟨none, some depthSteps, none⟩

def depthState : AppState := ⟨some depthTrace, ⟨DbgMode.source, 1, 0, []⟩⟩

/-- Three executing source steps on lines 1, 2, 3. -/
def bpTrace : Trace := ⟨none, some [wLineStep 1, wLineStep 2, wLineStep 3], none⟩

def bpState : AppState := ⟨some bpTrace, ⟨DbgMode.source, 0, 0, [3]⟩⟩

/-- Two opcode steps, one source step whose pc is 1. -/
def cexResetTrace : Trace := ⟨some [wStep 0, wStep 1], some [wStep 1], none⟩

def cexResetState : AppState := ⟨none, ⟨DbgMode.opcode, 5, 7, [3]⟩⟩

/-- Opcode pcs equal to index, a single source step at pc 5. -/
def cexRoundTrace : Trace :=
  ⟨some [wStep 0, wStep 1, wStep 2, wStep 3, wStep 4, wStep 5],
   some [wStep 5], none⟩

def cexRoundState : AppState := ⟨some cexRoundTrace, ⟨DbgMode.source, 0, 0, []⟩⟩

/-- A trace carrying no step sequence at all. -/
def emptyTrace : Trace := ⟨none, none, none⟩

def cexContinueState : AppState := ⟨some emptyTrace, ⟨DbgMode.source, 3, 7, []⟩⟩

/-- Source steps: frame 1 on lines 2-3 and 5-6, frame 2 on lines 8-9. -/
def frameSteps : List Step :=
  [wFrameStep 1 2 3, wFrameStep 1 5 6, wFrameStep 2 8 9]

def frameTrace : Trace := ⟨none, some frameSteps, none⟩

def frameState : AppState := ⟨some frameTrace, ⟨DbgMode.source, 0, 0, []⟩⟩

/-! ### Basic helper lemmas -/

theorem isEmpty_false_of_ne_nil {α : Type} {l : List α} (h : l ≠ []) :
    l.isEmpty = false := by
  cases l with
  | nil => exact absurd rfl h
  | cons a tl => rfl

theorem clamp_of_le {x lo hi : Int} (h1 : lo ≤ x) (h2 : x ≤ hi) :
    clamp x lo hi = x := by
  unfold clamp; omega

theorem clamp_lo_le {x lo hi : Int} (h : lo ≤ hi) : lo ≤ clamp x lo hi := by
  unfold clamp; omega

theorem clamp_le_hi {x lo hi : Int} (h : lo ≤ hi) : clamp x lo hi ≤ hi := by
  unfold clamp; omega

theorem clamp_zero_le_self {x hi : Int} (h0 : 0 ≤ x) : clamp x 0 hi ≤ x := by
  unfold clamp; omega

theorem getD_drop {α : Type} (d : α) :
    ∀ (l : List α) (m k : Nat), (l.drop m).getD k d = l.getD (m + k) d := by
  intro l
  induction l with
  | nil => intro m k; simp
  | cons a tl ih =>
    intro m k
    cases m with
    | zero => simp
    | succ m =>
      have h1 : m + 1 + k = (m + k) + 1 := by omega
      rw [List.drop_succ_cons, ih m k, h1, List.getD_cons_succ]

theorem getD_of_lt {α : Type} [Inhabited α] {l : List α} {j : Nat}
    (h : j < l.length) : l[j]? = some (l.getD j default) := by
  rw [List.getElem?_eq_getElem h, List.getD_eq_getElem _ _ h]

theorem jsIndex_eq_some {l : List Step} {i : Int} (h0 : 0 ≤ i)
    (h : i.toNat < l.length) : jsIndex l i = some (l.getD i.toNat default) := by
  unfold jsIndex
  rw [if_neg (by omega), getD_of_lt h]

theorem pcAt_eq {l : List Step} {j : Nat} (h : j < l.length) :
    pcAt l j = (l.getD j default).pc := by
  unfold pcAt
  rw [List.getD_eq_getElem _ _ (by simpa using h), List.getElem_map,
    List.getD_eq_getElem _ _ h]

theorem depthAt_eq {l : List Step} {j : Nat} (h : j < l.length) :
    depthAt l j = stepDepth (some (l.getD j default)) := by
  unfold depthAt
  rw [getD_of_lt h]

/-! ### The prefix-scan of `sourceIndexFromOpcodeIndex` -/

theorem lePrefixLen_le_length (t : Int) :
    ∀ l : List Int, lePrefixLen l t ≤ l.length := by
  intro l
  induction l with
  | nil => simp [lePrefixLen]
  | cons p rest ih =>
    by_cases hp : t < p
    · simp [lePrefixLen, hp]
    · simp only [lePrefixLen, if_neg hp, List.length_cons]
      omega

theorem scanBest_eq (t : Int) :
    ∀ (l : List Int) (i b : Nat),
      scanBest l t i b = if lePrefixLen l t = 0 then b else i + lePrefixLen l t - 1 := by
  intro l
  induction l with
  | nil => intro i b; simp [scanBest, lePrefixLen]
  | cons p rest ih =>
    intro i b
    by_cases hp : t < p
    · simp [scanBest, lePrefixLen, hp]
    · rw [scanBest, if_neg hp, ih (i + 1) i]
      simp only [lePrefixLen, if_neg hp]
      by_cases h0 : lePrefixLen rest t = 0
      · simp [h0]
      · rw [if_neg h0, if_neg (by omega)]
        omega

theorem getD_le_of_lt_lePrefixLen {t : Int} :
    ∀ {l : List Int} (j : Nat), j < lePrefixLen l t →
      j < l.length ∧ l.getD j 0 ≤ t := by
  intro l
  induction l with
  | nil => intro j h; simp [lePrefixLen] at h
  | cons p rest ih =>
    intro j h
    rw [lePrefixLen] at h
    by_cases hp : t < p
    · rw [if_pos hp] at h; omega
    · rw [if_neg hp] at h
      cases j with
      | zero => exact ⟨by simp, by simpa using (by omega : p ≤ t)⟩
      | succ j =>
        obtain ⟨h1, h2⟩ := ih j (by omega)
        exact ⟨by simpa using h1, by simpa using h2⟩

theorem lt_lePrefixLen_of_sorted {t : Int} :
    ∀ {l : List Int}, l.Sorted (fun a b => a ≤ b) →
      ∀ (j : Nat), j < l.length → l.getD j 0 ≤ t → j < lePrefixLen l t := by
  intro l
  induction l with
  | nil => intro _ j hj _; simp at hj
  | cons p rest ih =>
    intro hs j hj hle
    rw [List.sorted_cons] at hs
    obtain ⟨hp, hs'⟩ := hs
    cases j with
    | zero =>
      simp only [List.getD_cons_zero] at hle
      rw [lePrefixLen, if_neg (by omega)]
      omega
    | succ j =>
      simp only [List.getD_cons_succ] at hle
      have hj' : j < rest.length := by simpa using hj
      have hmem : rest.getD j 0 ∈ rest := by
        rw [List.getD_eq_getElem _ _ hj']
        exact List.getElem_mem hj'
      have hpt : p ≤ t := le_trans (hp _ hmem) hle
      rw [lePrefixLen, if_neg (by omega)]
      have := ih hs' j hj' hle
      omega

/-! ### The forward search loops -/

theorem findIdxFrom_some {p : Step → Bool} :
    ∀ {l : List Step} {i j : Nat}, findIdxFrom p l i = some j →
      i ≤ j ∧ j - i < l.length ∧ p (l.getD (j - i) default) = true ∧
        ∀ k, i ≤ k → k < j → p (l.getD (k - i) default) = false := by
  intro l
  induction l with
  | nil => intro i j h; simp [findIdxFrom] at h
  | cons s rest ih =>
    intro i j h
    rw [findIdxFrom] at h
    by_cases hp : p s = true
    · rw [if_pos hp] at h
      injection h with h
      subst h
      refine ⟨le_refl _, by simp, by simpa using hp, ?_⟩
      intro k hk1 hk2
      omega
    · rw [if_neg hp] at h
      obtain ⟨h1, h2, h3, h4⟩ := ih h
      have hji : j - i = (j - (i + 1)) + 1 := by omega
      refine ⟨by omega, by simp; omega, ?_, ?_⟩
      · rw [hji, List.getD_cons_succ]
        exact h3
      · intro k hk1 hk2
        rcases Nat.eq_or_lt_of_le hk1 with h | h
        · subst h
          simpa using eq_false_of_ne_true hp
        · have hki : k - i = (k - (i + 1)) + 1 := by omega
          rw [hki, List.getD_cons_succ]
          exact h4 k (by omega) hk2

theorem findIdxFrom_none {p : Step → Bool} :
    ∀ {l : List Step} {i : Nat}, findIdxFrom p l i = none →
      ∀ k, k < l.length → p (l.getD k default) = false := by
  intro l
  induction l with
  | nil => intro i _ k hk; simp at hk
  | cons s rest ih =>
    intro i h k hk
    rw [findIdxFrom] at h
    by_cases hp : p s = true
    · rw [if_pos hp] at h; exact absurd h (by simp)
    · rw [if_neg hp] at h
      cases k with
      | zero => simpa using eq_false_of_ne_true hp
      | succ k =>
        rw [List.getD_cons_succ]
        exact ih h k (by simpa using hk)

/-! ### Unfolding lemmas for the synchronizer -/

theorem sourceIndexFromOpcodeIndex_eq_scan {st : AppState} {tr : Trace}
    (htr : st.trace = some tr) (hS : getSourceSteps (some tr) ≠ []) (i : Int) :
    sourceIndexFromOpcodeIndex st i =
      scanBest ((getSourceSteps (some tr)).map Step.pc)
        (match jsIndex (getOpcodeSteps (some tr))
            (clamp i 0 (max 0 (((getOpcodeSteps (some tr)).length : Int) - 1))) with
         | some s => s.pc
         | none => 0) 0 0 := by
  unfold sourceIndexFromOpcodeIndex
  rw [htr]
  simp only [isEmpty_false_of_ne_nil hS, Bool.false_eq_true, if_false]

theorem one_le_length_int {α : Type} {l : List α} (h : l ≠ []) :
    1 ≤ (l.length : Int) := by
  have := List.length_pos.mpr h
  omega

theorem targetPc_eq {tr : Trace} (hO : getOpcodeSteps (some tr) ≠ []) (i : Int) :
    (match jsIndex (getOpcodeSteps (some tr))
        (clamp i 0 (max 0 (((getOpcodeSteps (some tr)).length : Int) - 1))) with
     | some s => s.pc
     | none => 0) =
      pcAt (getOpcodeSteps (some tr))
        (clamp i 0 (((getOpcodeSteps (some tr)).length : Int) - 1)).toNat := by
  have hlen : 1 ≤ ((getOpcodeSteps (some tr)).length : Int) :=
    one_le_length_int hO
  have hmax : max 0 (((getOpcodeSteps (some tr)).length : Int) - 1) =
      ((getOpcodeSteps (some tr)).length : Int) - 1 := by omega
  rw [hmax]
  have h0 : (0 : Int) ≤ clamp i 0 (((getOpcodeSteps (some tr)).length : Int) - 1) :=
    clamp_lo_le (by omega)
  have h1 : clamp i 0 (((getOpcodeSteps (some tr)).length : Int) - 1) ≤
      ((getOpcodeSteps (some tr)).length : Int) - 1 := clamp_le_hi (by omega)
  have h2 : (clamp i 0 (((getOpcodeSteps (some tr)).length : Int) - 1)).toNat <
      (getOpcodeSteps (some tr)).length := by omega
  rw [jsIndex_eq_some h0 h2, pcAt_eq h2]

theorem syncOpcodeFromSource_post {st : AppState} {tr : Trace}
    (htr : st.trace = some tr) (hS : getSourceSteps (some tr) ≠ [])
    (hO : getOpcodeSteps (some tr) ≠ []) :
    syncOpcodeFromSource st =
      { st with dbg := { st.dbg with
          opcodeStep := clamp
            (pcAt (getSourceSteps (some tr))
              (clamp st.dbg.sourceStep 0
                (((getSourceSteps (some tr)).length : Int) - 1)).toNat)
            0 (((getOpcodeSteps (some tr)).length : Int) - 1) } } := by
  have hlenS : 1 ≤ ((getSourceSteps (some tr)).length : Int) :=
    one_le_length_int hS
  have h0 : (0 : Int) ≤ clamp st.dbg.sourceStep 0
      (((getSourceSteps (some tr)).length : Int) - 1) := clamp_lo_le (by omega)
  have h1 : clamp st.dbg.sourceStep 0 (((getSourceSteps (some tr)).length : Int) - 1) ≤
      ((getSourceSteps (some tr)).length : Int) - 1 := clamp_le_hi (by omega)
  have h2 : (clamp st.dbg.sourceStep 0
      (((getSourceSteps (some tr)).length : Int) - 1)).toNat <
      (getSourceSteps (some tr)).length := by omega
  unfold syncOpcodeFromSource
  rw [htr]
  simp only [isEmpty_false_of_ne_nil hS, isEmpty_false_of_ne_nil hO,
    Bool.or_self, Bool.false_eq_true, if_false]
  rw [jsIndex_eq_some h0 h2, pcAt_eq h2]

theorem syncSourceFromOpcode_post {st : AppState} {tr : Trace}
    (htr : st.trace = some tr) (hS : getSourceSteps (some tr) ≠ []) :
    syncSourceFromOpcode st =
      { st with dbg := { st.dbg with
          sourceStep := (sourceIndexFromOpcodeIndex st st.dbg.opcodeStep : Int) } } := by
  unfold syncSourceFromOpcode
  rw [htr]
  simp only [isEmpty_false_of_ne_nil hS, Bool.false_eq_true, if_false]

theorem syncSourceFromOpcode_none {st : AppState} (htr : st.trace = none) :
    syncSourceFromOpcode st = st := by
  unfold syncSourceFromOpcode
  rw [htr]

theorem syncOpcodeFromSource_none {st : AppState} (htr : st.trace = none) :
    syncOpcodeFromSource st = st := by
  unfold syncOpcodeFromSource
  rw [htr]

/-! ### Characterization of `scanForward` -/

theorem scanForward_found {p : Step → Bool} {steps : List Step} {i : Nat}
    (hex : ∃ j, i < j ∧ j < steps.length ∧ p (steps.getD j default) = true) :
    i < scanForward p steps i ∧ scanForward p steps i < steps.length ∧
      p (steps.getD (scanForward p steps i) default) = true ∧
      ∀ k, i < k → k < scanForward p steps i → p (steps.getD k default) = false := by
  unfold scanForward
  cases hf : findIdxFrom p (steps.drop (i + 1)) (i + 1) with
  | some j =>
    obtain ⟨h1, h2, h3, h4⟩ := findIdxFrom_some hf
    rw [List.length_drop] at h2
    rw [getD_drop] at h3
    have hj : i + 1 + (j - (i + 1)) = j := by omega
    rw [hj] at h3
    rw [Option.getD_some]
    refine ⟨by omega, by omega, h3, ?_⟩
    intro k hk1 hk2
    have := h4 k (by omega) hk2
    rw [getD_drop] at this
    have hk : i + 1 + (k - (i + 1)) = k := by omega
    rwa [hk] at this
  | none =>
    exfalso
    obtain ⟨j, hj1, hj2, hj3⟩ := hex
    have := findIdxFrom_none hf (j - (i + 1)) (by rw [List.length_drop]; omega)
    rw [getD_drop] at this
    have hj : i + 1 + (j - (i + 1)) = j := by omega
    rw [hj] at this
    rw [hj3] at this
    exact absurd this (by simp)

theorem scanForward_not_found {p : Step → Bool} {steps : List Step} {i : Nat}
    (hall : ∀ j, i < j → j < steps.length → p (steps.getD j default) = false) :
    scanForward p steps i = steps.length - 1 := by
  unfold scanForward
  cases hf : findIdxFrom p (steps.drop (i + 1)) (i + 1) with
  | some j =>
    exfalso
    obtain ⟨h1, h2, h3, _⟩ := findIdxFrom_some hf
    rw [List.length_drop] at h2
    rw [getD_drop] at h3
    have hj : i + 1 + (j - (i + 1)) = j := by omega
    rw [hj] at h3
    have := hall j (by omega) (by omega)
    rw [h3] at this
    exact absurd this (by simp)
  | none => rw [Option.getD_none]

theorem scanForward_le {p : Step → Bool} {steps : List Step} {i : Nat}
    (hi : i < steps.length) : i ≤ scanForward p steps i := by
  unfold scanForward
  cases hf : findIdxFrom p (steps.drop (i + 1)) (i + 1) with
  | some j =>
    obtain ⟨h1, _, _, _⟩ := findIdxFrom_some hf
    rw [Option.getD_some]
    omega
  | none =>
    rw [Option.getD_none]
    omega

theorem scanForward_lt {p : Step → Bool} {steps : List Step} {i : Nat}
    (h : steps ≠ []) : scanForward p steps i < steps.length := by
  have := List.length_pos.mpr h
  unfold scanForward
  cases hf : findIdxFrom p (steps.drop (i + 1)) (i + 1) with
  | some j =>
    obtain ⟨h1, h2, _, _⟩ := findIdxFrom_some hf
    rw [List.length_drop] at h2
    rw [Option.getD_some]
    omega
  | none =>
    rw [Option.getD_none]
    omega

/-! ### Field-preservation lemmas for the synchronizer -/

theorem syncOpcodeFromSource_fields (st : AppState) :
    (syncOpcodeFromSource st).trace = st.trace ∧
      (syncOpcodeFromSource st).dbg.mode = st.dbg.mode ∧
      (syncOpcodeFromSource st).dbg.sourceStep = st.dbg.sourceStep ∧
      (syncOpcodeFromSource st).dbg.breakpoints = st.dbg.breakpoints := by
  unfold syncOpcodeFromSource
  cases htr : st.trace with
  | none => exact ⟨htr, rfl, rfl, rfl⟩
  | some tr =>
    dsimp only
    split
    · exact ⟨htr, rfl, rfl, rfl⟩
    · exact ⟨rfl, rfl, rfl, rfl⟩

theorem syncSourceFromOpcode_fields (st : AppState) :
    (syncSourceFromOpcode st).trace = st.trace ∧
      (syncSourceFromOpcode st).dbg.mode = st.dbg.mode ∧
      (syncSourceFromOpcode st).dbg.opcodeStep = st.dbg.opcodeStep ∧
      (syncSourceFromOpcode st).dbg.breakpoints = st.dbg.breakpoints := by
  unfold syncSourceFromOpcode
  cases htr : st.trace with
  | none => exact ⟨htr, rfl, rfl, rfl⟩
  | some tr =>
    dsimp only
    split
    · exact ⟨htr, rfl, rfl, rfl⟩
    · exact ⟨rfl, rfl, rfl, rfl⟩

/-! ### Shapes of the stepping operations -/

theorem intoIdx_bounds {steps : List Step} (idx : Int) (h : steps ≠ []) :
    0 ≤ sourceStepIntoIndex steps idx ∧
      sourceStepIntoIndex steps idx < (steps.length : Int) := by
  have := one_le_length_int h
  unfold sourceStepIntoIndex clamp
  omega

theorem sourceStepOverIndex_lt {steps : List Step} (idx : Nat) (h : steps ≠ []) :
    sourceStepOverIndex steps idx < steps.length := by
  unfold sourceStepOverIndex
  exact scanForward_lt h

theorem sourceStepOutIndex_lt {steps : List Step} (idx : Nat) (h : steps ≠ []) :
    sourceStepOutIndex steps idx < steps.length := by
  unfold sourceStepOutIndex
  exact scanForward_lt h

theorem stepIntoSource_shape (st : AppState) (tr : Trace)
    (htr : st.trace = some tr) (hS : getSourceSteps (some tr) ≠ []) :
    ∃ n : Nat, n < (getSourceSteps (some tr)).length ∧
      stepIntoSource st = syncOpcodeFromSource (withSrcIdx st n) := by
  by_cases hm : st.dbg.mode = DbgMode.opcode
  · have hb := intoIdx_bounds
      (clamp ((sourceIndexFromOpcodeIndex st st.dbg.opcodeStep : Int)) 0
        (((getSourceSteps (some tr)).length : Int) - 1)) hS
    refine ⟨(sourceStepIntoIndex (getSourceSteps (some tr))
      (clamp ((sourceIndexFromOpcodeIndex st st.dbg.opcodeStep : Int)) 0
        (((getSourceSteps (some tr)).length : Int) - 1))).toNat, by omega, ?_⟩
    unfold stepIntoSource
    rw [htr]
    simp only [isEmpty_false_of_ne_nil hS, Bool.false_eq_true, if_false]
    rw [if_pos hm, syncSourceFromOpcode_post htr hS]
    congr 1
    unfold withSrcIdx
    cases st with
    | mk trc dbg =>
      cases dbg with
      | mk m ss os bps =>
        congr 1
        simp only [Int.toNat_of_nonneg hb.1]
  · have hb := intoIdx_bounds
      (clamp st.dbg.sourceStep 0 (((getSourceSteps (some tr)).length : Int) - 1)) hS
    refine ⟨(sourceStepIntoIndex (getSourceSteps (some tr))
      (clamp st.dbg.sourceStep 0
        (((getSourceSteps (some tr)).length : Int) - 1))).toNat, by omega, ?_⟩
    unfold stepIntoSource
    rw [htr]
    simp only [isEmpty_false_of_ne_nil hS, Bool.false_eq_true, if_false]
    rw [if_neg hm]
    congr 1
    unfold withSrcIdx
    cases st with
    | mk trc dbg =>
      cases dbg with
      | mk m ss os bps =>
        congr 1
        simp only [Int.toNat_of_nonneg hb.1]

theorem stepOverSource_shape (st : AppState) (tr : Trace)
    (htr : st.trace = some tr) (hS : getSourceSteps (some tr) ≠ []) :
    ∃ n : Nat, n < (getSourceSteps (some tr)).length ∧
      stepOverSource st = syncOpcodeFromSource (withSrcIdx st n) := by
  by_cases hm : st.dbg.mode = DbgMode.opcode
  · refine ⟨sourceStepOverIndex (getSourceSteps (some tr))
      (clamp ((sourceIndexFromOpcodeIndex st st.dbg.opcodeStep : Int)) 0
        (((getSourceSteps (some tr)).length : Int) - 1)).toNat,
      sourceStepOverIndex_lt _ hS, ?_⟩
    unfold stepOverSource
    rw [htr]
    simp only [isEmpty_false_of_ne_nil hS, Bool.false_eq_true, if_false]
    rw [if_pos hm, syncSourceFromOpcode_post htr hS]
    rfl
  · refine ⟨sourceStepOverIndex (getSourceSteps (some tr))
      (clamp st.dbg.sourceStep 0
        (((getSourceSteps (some tr)).length : Int) - 1)).toNat,
      sourceStepOverIndex_lt _ hS, ?_⟩
    unfold stepOverSource
    rw [htr]
    simp only [isEmpty_false_of_ne_nil hS, Bool.false_eq_true, if_false]
    rw [if_neg hm]
    rfl

theorem stepOutSource_shape (st : AppState) (tr : Trace)
    (htr : st.trace = some tr) (hS : getSourceSteps (some tr) ≠ []) :
    ∃ n : Nat, n < (getSourceSteps (some tr)).length ∧
      stepOutSource st = syncOpcodeFromSource (withSrcIdx st n) := by
  by_cases hm : st.dbg.mode = DbgMode.opcode
  · refine ⟨sourceStepOutIndex (getSourceSteps (some tr))
      (clamp ((sourceIndexFromOpcodeIndex st st.dbg.opcodeStep : Int)) 0
        (((getSourceSteps (some tr)).length : Int) - 1)).toNat,
      sourceStepOutIndex_lt _ hS, ?_⟩
    unfold stepOutSource
    rw [htr]
    simp only [isEmpty_false_of_ne_nil hS, Bool.false_eq_true, if_false]
    rw [if_pos hm, syncSourceFromOpcode_post htr hS]
    rfl
  · refine ⟨sourceStepOutIndex (getSourceSteps (some tr))
      (clamp st.dbg.sourceStep 0
        (((getSourceSteps (some tr)).length : Int) - 1)).toNat,
      sourceStepOutIndex_lt _ hS, ?_⟩
    unfold stepOutSource
    rw [htr]
    simp only [isEmpty_false_of_ne_nil hS, Bool.false_eq_true, if_false]
    rw [if_neg hm]
    rfl

theorem continueToBreakpoint_sourceMode (st : AppState) (tr : Trace)
    (htr : st.trace = some tr) (hS : getSourceSteps (some tr) ≠ [])
    (hm : ¬ st.dbg.mode = DbgMode.opcode) :
    (continueToBreakpoint st).2 = st ∧
      (continueToBreakpoint st).1 < (getSourceSteps (some tr)).length := by
  have hpos := List.length_pos.mpr hS
  unfold continueToBreakpoint
  rw [htr]
  simp only [isEmpty_false_of_ne_nil hS, Bool.false_eq_true, if_false]
  rw [if_neg hm]
  split
  · exact ⟨rfl, by omega⟩
  · exact ⟨rfl, scanForward_lt hS⟩

theorem continueExecution_shape (st : AppState) (tr : Trace)
    (htr : st.trace = some tr) (hS : getSourceSteps (some tr) ≠ []) :
    ∃ n : Nat, n < (getSourceSteps (some tr)).length ∧
      continueExecution st = syncOpcodeFromSource (withSrcIdx st n) := by
  have h1 : (AppState.mk (some tr)
      (Dbg.mk DbgMode.source st.dbg.sourceStep st.dbg.opcodeStep
        st.dbg.breakpoints)).trace = some tr := rfl
  have hm1 : ¬ (AppState.mk (some tr)
      (Dbg.mk DbgMode.source st.dbg.sourceStep st.dbg.opcodeStep
        st.dbg.breakpoints)).dbg.mode = DbgMode.opcode :=
    fun h => DbgMode.noConfusion h
  obtain ⟨hsnd, hfst⟩ := continueToBreakpoint_sourceMode _ tr h1 hS hm1
  refine ⟨(continueToBreakpoint (AppState.mk (some tr)
      (Dbg.mk DbgMode.source st.dbg.sourceStep st.dbg.opcodeStep
        st.dbg.breakpoints))).1, hfst, ?_⟩
  unfold continueExecution
  rw [htr]
  simp only [isEmpty_false_of_ne_nil hS, Bool.false_eq_true, if_false]
  rw [hsnd]
  congr 1
  apply AppState.ext
  · exact htr.symm
  · rfl

theorem sync_withSrcIdx (st : AppState) (tr : Trace) (n : Nat)
    (htr : st.trace = some tr) (hS : getSourceSteps (some tr) ≠ [])
    (hO : getOpcodeSteps (some tr) ≠ [])
    (hn : n < (getSourceSteps (some tr)).length) :
    (syncOpcodeFromSource (withSrcIdx st n)).dbg.sourceStep = (n : Int) ∧
      (syncOpcodeFromSource (withSrcIdx st n)).dbg.mode = DbgMode.source ∧
      (syncOpcodeFromSource (withSrcIdx st n)).dbg.opcodeStep =
        clamp (pcAt (getSourceSteps (some tr)) n) 0
          (((getOpcodeSteps (some tr)).length : Int) - 1) := by
  have htr' : (withSrcIdx st n).trace = some tr := htr
  rw [syncOpcodeFromSource_post htr' hS hO]
  have hcl : clamp ((n : Int)) 0 (((getSourceSteps (some tr)).length : Int) - 1) =
      (n : Int) := clamp_of_le (by omega) (by omega)
  refine ⟨rfl, rfl, ?_⟩
  show clamp (pcAt (getSourceSteps (some tr))
      (clamp ((n : Int)) 0 (((getSourceSteps (some tr)).length : Int) - 1)).toNat) 0
      (((getOpcodeSteps (some tr)).length : Int) - 1) = _
  rw [hcl, Int.toNat_natCast]

theorem sifo_char (st : AppState) (tr : Trace) (i : Int)
    (htr : st.trace = some tr)
    (hS : getSourceSteps (some tr) ≠ []) (hO : getOpcodeSteps (some tr) ≠ [])
    (hmono : ((getSourceSteps (some tr)).map Step.pc).Sorted (fun a b => a ≤ b)) :
    ((∃ j, j < (getSourceSteps (some tr)).length ∧
        pcAt (getSourceSteps (some tr)) j ≤ opcodeTargetPc tr i) →
      sourceIndexFromOpcodeIndex st i < (getSourceSteps (some tr)).length ∧
        pcAt (getSourceSteps (some tr)) (sourceIndexFromOpcodeIndex st i) ≤
          opcodeTargetPc tr i ∧
        ∀ j, j < (getSourceSteps (some tr)).length →
          pcAt (getSourceSteps (some tr)) j ≤ opcodeTargetPc tr i →
          j ≤ sourceIndexFromOpcodeIndex st i) ∧
    ((∀ j, j < (getSourceSteps (some tr)).length →
        opcodeTargetPc tr i < pcAt (getSourceSteps (some tr)) j) →
      sourceIndexFromOpcodeIndex st i = 0) := by
  have heq : sourceIndexFromOpcodeIndex st i =
      scanBest ((getSourceSteps (some tr)).map Step.pc) (opcodeTargetPc tr i) 0 0 := by
    rw [sourceIndexFromOpcodeIndex_eq_scan htr hS i, targetPc_eq hO i]
    rfl
  rw [heq, scanBest_eq]
  have hlen : ((getSourceSteps (some tr)).map Step.pc).length =
      (getSourceSteps (some tr)).length := List.length_map _ _
  have hklen := lePrefixLen_le_length (opcodeTargetPc tr i)
    ((getSourceSteps (some tr)).map Step.pc)
  constructor
  · rintro ⟨j, hj, hle⟩
    have hjk : j < lePrefixLen ((getSourceSteps (some tr)).map Step.pc)
        (opcodeTargetPc tr i) :=
      lt_lePrefixLen_of_sorted hmono j (by omega) hle
    rw [if_neg (by omega)]
    obtain ⟨hr1, hr2⟩ := @getD_le_of_lt_lePrefixLen (opcodeTargetPc tr i)
      ((getSourceSteps (some tr)).map Step.pc)
      (0 + lePrefixLen ((getSourceSteps (some tr)).map Step.pc)
        (opcodeTargetPc tr i) - 1) (by omega)
    refine ⟨by omega, hr2, ?_⟩
    intro j' hj' hle'
    have := lt_lePrefixLen_of_sorted hmono j' (by omega) hle'
    omega
  · intro hall
    have hk0 : lePrefixLen ((getSourceSteps (some tr)).map Step.pc)
        (opcodeTargetPc tr i) = 0 := by
      by_contra hk
      obtain ⟨h0, hle0⟩ := @getD_le_of_lt_lePrefixLen (opcodeTargetPc tr i)
        ((getSourceSteps (some tr)).map Step.pc) 0 (by omega)
      exact absurd hle0 (not_le.mpr (hall 0 (by omega)))
    rw [if_pos hk0]

theorem stepOpcode_shape (st : AppState) (tr : Trace)
    (htr : st.trace = some tr) (hO : getOpcodeSteps (some tr) ≠ []) (delta : Int) :
    ∃ o : Int, 0 ≤ o ∧ o < ((getOpcodeSteps (some tr)).length : Int) ∧
      stepOpcode st delta = syncSourceFromOpcode (withOpIdx st o) := by
  have hlen := one_le_length_int hO
  by_cases hm : st.dbg.mode = DbgMode.opcode
  · have hcl : clamp (st.dbg.opcodeStep + delta) 0
        (((getOpcodeSteps (some tr)).length : Int) - 1) ≤
        ((getOpcodeSteps (some tr)).length : Int) - 1 := clamp_le_hi (by omega)
    refine ⟨clamp (st.dbg.opcodeStep + delta) 0
      (((getOpcodeSteps (some tr)).length : Int) - 1),
      clamp_lo_le (by omega), by omega, ?_⟩
    unfold stepOpcode
    rw [htr]
    simp only [isEmpty_false_of_ne_nil hO, Bool.false_eq_true, if_false]
    rw [if_neg (not_not_intro hm)]
    rfl
  · obtain ⟨f1, f2, f3, f4⟩ := syncOpcodeFromSource_fields st
    have hcl : clamp ((syncOpcodeFromSource st).dbg.opcodeStep + delta) 0
        (((getOpcodeSteps (some tr)).length : Int) - 1) ≤
        ((getOpcodeSteps (some tr)).length : Int) - 1 := clamp_le_hi (by omega)
    refine ⟨clamp ((syncOpcodeFromSource st).dbg.opcodeStep + delta) 0
      (((getOpcodeSteps (some tr)).length : Int) - 1),
      clamp_lo_le (by omega), by omega, ?_⟩
    unfold stepOpcode
    rw [htr]
    simp only [isEmpty_false_of_ne_nil hO, Bool.false_eq_true, if_false]
    rw [if_pos hm]
    congr 1
    unfold withOpIdx
    apply AppState.ext
    · exact f1
    · apply Dbg.ext
      · rfl
      · exact f3
      · rfl
      · exact f4

/-! ### Frame-span fold characterization -/

theorem matches_pos {t : Int} {s : Step} (h : stepMatchesFrame t s = true) :
    0 < stepLine s ∧ 0 < stepEndLine s := by
  obtain ⟨pc, cd, fid, ex, mp⟩ := s
  rcases mp with _ | m
  · simp [stepMatchesFrame] at h
  · obtain ⟨spn, mfid, mcd⟩ := m
    rcases spn with _ | sp
    · simp [stepMatchesFrame] at h
    · simp only [stepMatchesFrame, Bool.and_eq_true, decide_eq_true_eq] at h
      obtain ⟨_, hline⟩ := h
      refine ⟨by simpa [stepLine] using Nat.pos_of_ne_zero hline, ?_⟩
      show 0 < effectiveEnd sp
      unfold effectiveEnd
      split
      · exact Nat.pos_of_ne_zero hline
      · omega

theorem frameSpanFold_cons_matched {t : Int} {s : Step}
    (hm : stepMatchesFrame t s = true) (rest : List Step) (a b : Nat) :
    frameSpanFold (s :: rest) t a b =
      frameSpanFold rest t
        (if (decide (a = 0) || decide (stepLine s < a)) = true then stepLine s else a)
        (if (decide (b = 0) || decide (b < stepEndLine s)) = true then stepEndLine s
         else b) := by
  obtain ⟨pc, cd, fid, ex, mp⟩ := s
  rcases mp with _ | m
  · simp [stepMatchesFrame] at hm
  · obtain ⟨spn, mfid, mcd⟩ := m
    rcases spn with _ | sp
    · simp [stepMatchesFrame] at hm
    · simp only [stepMatchesFrame, Bool.and_eq_true, decide_eq_true_eq] at hm
      obtain ⟨hfid, hline⟩ := hm
      show (if frameIdFromStep (some ⟨pc, cd, fid, ex,
            some ⟨some sp, mfid, mcd⟩⟩) = some t then
          if sp.line = 0 then
            frameSpanFold rest t a b
          else
            frameSpanFold rest t
              (if (decide (a = 0) || decide (sp.line < a)) = true then sp.line else a)
              (if (decide (b = 0) || decide (b < effectiveEnd sp)) = true
               then effectiveEnd sp else b)
        else frameSpanFold rest t a b) = _
      rw [if_pos hfid, if_neg hline]
      rfl

theorem frameSpanFold_cons_skip {t : Int} {s : Step}
    (hm : stepMatchesFrame t s = false) (rest : List Step) (a b : Nat) :
    frameSpanFold (s :: rest) t a b = frameSpanFold rest t a b := by
  obtain ⟨pc, cd, fid, ex, mp⟩ := s
  rcases mp with _ | m
  · rfl
  · obtain ⟨spn, mfid, mcd⟩ := m
    rcases spn with _ | sp
    · rfl
    · simp only [stepMatchesFrame, Bool.and_eq_false_iff,
        decide_eq_false_iff_not, not_not] at hm
      show (if frameIdFromStep (some ⟨pc, cd, fid, ex,
            some ⟨some sp, mfid, mcd⟩⟩) = some t then
          if sp.line = 0 then
            frameSpanFold rest t a b
          else
            frameSpanFold rest t
              (if (decide (a = 0) || decide (sp.line < a)) = true then sp.line else a)
              (if (decide (b = 0) || decide (b < effectiveEnd sp)) = true
               then effectiveEnd sp else b)
        else frameSpanFold rest t a b) = _
      by_cases hfid : frameIdFromStep (some ⟨pc, cd, fid, ex,
          some ⟨some sp, mfid, mcd⟩⟩) = some t
      · rw [if_pos hfid]
        have hline : sp.line = 0 := by
          rcases hm with hm | hm
          · exact absurd hfid hm
          · exact hm
        rw [if_pos hline]
      · rw [if_neg hfid]

/-! generic foldl min and max facts -/

theorem foldlMin_le_init {α : Type} (f : α → Nat) :
    ∀ (l : List α) (a : Nat), l.foldl (fun b x => min b (f x)) a ≤ a := by
  intro l
  induction l with
  | nil => intro a; simp
  | cons x xs ih =>
    intro a
    have := ih (min a (f x))
    simp only [List.foldl_cons]
    omega

theorem foldlMin_le_mem {α : Type} (f : α → Nat) :
    ∀ (l : List α) (a : Nat) (x : α), x ∈ l →
      l.foldl (fun b y => min b (f y)) a ≤ f x := by
  intro l
  induction l with
  | nil => intro a x hx; simp at hx
  | cons y ys ih =>
    intro a x hx
    rw [List.mem_cons] at hx
    simp only [List.foldl_cons]
    rcases hx with rfl | hx
    · have := foldlMin_le_init f ys (min a (f x))
      omega
    · exact ih (min a (f y)) x hx

theorem foldlMin_attained {α : Type} (f : α → Nat) :
    ∀ (l : List α) (a : Nat),
      l.foldl (fun b y => min b (f y)) a = a ∨
        ∃ x ∈ l, l.foldl (fun b y => min b (f y)) a = f x := by
  intro l
  induction l with
  | nil => intro a; left; rfl
  | cons y ys ih =>
    intro a
    simp only [List.foldl_cons]
    rcases ih (min a (f y)) with h | ⟨x, hx, h⟩
    · rcases Nat.le_total a (f y) with hle | hle
      · left; rw [h]; omega
      · right
        refine ⟨y, List.mem_cons_self y ys, ?_⟩
        rw [h]; omega
    · right
      exact ⟨x, List.mem_cons_of_mem y hx, h⟩

theorem foldlMax_init_le {α : Type} (f : α → Nat) :
    ∀ (l : List α) (a : Nat), a ≤ l.foldl (fun b x => max b (f x)) a := by
  intro l
  induction l with
  | nil => intro a; simp
  | cons x xs ih =>
    intro a
    have := ih (max a (f x))
    simp only [List.foldl_cons]
    omega

theorem foldlMax_mem_le {α : Type} (f : α → Nat) :
    ∀ (l : List α) (a : Nat) (x : α), x ∈ l →
      f x ≤ l.foldl (fun b y => max b (f y)) a := by
  intro l
  induction l with
  | nil => intro a x hx; simp at hx
  | cons y ys ih =>
    intro a x hx
    rw [List.mem_cons] at hx
    simp only [List.foldl_cons]
    rcases hx with rfl | hx
    · have := foldlMax_init_le f ys (max a (f x))
      omega
    · exact ih (max a (f y)) x hx

theorem foldlMax_attained {α : Type} (f : α → Nat) :
    ∀ (l : List α) (a : Nat),
      l.foldl (fun b y => max b (f y)) a = a ∨
        ∃ x ∈ l, l.foldl (fun b y => max b (f y)) a = f x := by
  intro l
  induction l with
  | nil => intro a; left; rfl
  | cons y ys ih =>
    intro a
    simp only [List.foldl_cons]
    rcases ih (max a (f y)) with h | ⟨x, hx, h⟩
    · rcases Nat.le_total a (f y) with hle | hle
      · right
        refine ⟨y, List.mem_cons_self y ys, ?_⟩
        rw [h]; omega
      · left; rw [h]; omega
    · right
      exact ⟨x, List.mem_cons_of_mem y hx, h⟩

theorem frameSpanFold_eq (t : Int) :
    ∀ (l : List Step) (a b : Nat), 0 < a → 0 < b →
      frameSpanFold l t a b =
        ((l.filter (stepMatchesFrame t)).foldl (fun c x => min c (stepLine x)) a,
         (l.filter (stepMatchesFrame t)).foldl (fun c x => max c (stepEndLine x)) b) := by
  intro l
  induction l with
  | nil => intro a b _ _; rfl
  | cons s rest ih =>
    intro a b ha hb
    by_cases hm : stepMatchesFrame t s = true
    · obtain ⟨hl, he⟩ := matches_pos hm
      rw [frameSpanFold_cons_matched hm, List.filter_cons_of_pos hm]
      have h1 : (if (decide (a = 0) || decide (stepLine s < a)) = true
          then stepLine s else a) = min a (stepLine s) := by
        split_ifs with hc
        · simp only [Bool.or_eq_true, decide_eq_true_eq] at hc
          omega
        · simp only [Bool.or_eq_true, decide_eq_true_eq, not_or] at hc
          omega
      have h2 : (if (decide (b = 0) || decide (b < stepEndLine s)) = true
          then stepEndLine s else b) = max b (stepEndLine s) := by
        split_ifs with hc
        · simp only [Bool.or_eq_true, decide_eq_true_eq] at hc
          omega
        · simp only [Bool.or_eq_true, decide_eq_true_eq, not_or] at hc
          omega
      rw [h1, h2, ih (min a (stepLine s)) (max b (stepEndLine s)) (by omega) (by omega)]
      simp only [List.foldl_cons]
    · rw [frameSpanFold_cons_skip (eq_false_of_ne_true hm),
        List.filter_cons_of_neg (by simpa using hm)]
      exact ih a b ha hb

theorem frameSpanFold_zero (t : Int) :
    ∀ l : List Step,
      frameSpanFold l t 0 0 =
        (match l.filter (stepMatchesFrame t) with
         | [] => (0, 0)
         | x :: rest =>
           (rest.foldl (fun c y => min c (stepLine y)) (stepLine x),
            rest.foldl (fun c y => max c (stepEndLine y)) (stepEndLine x))) := by
  intro l
  induction l with
  | nil => rfl
  | cons s rest ih =>
    by_cases hm : stepMatchesFrame t s = true
    · obtain ⟨hl, he⟩ := matches_pos hm
      rw [frameSpanFold_cons_matched hm, List.filter_cons_of_pos hm]
      have h1 : (if (decide ((0 : Nat) = 0) || decide (stepLine s < 0)) = true
          then stepLine s else 0) = stepLine s := by simp
      have h2 : (if (decide ((0 : Nat) = 0) || decide ((0 : Nat) < stepEndLine s)) = true
          then stepEndLine s else 0) = stepEndLine s := by simp
      rw [h1, h2, frameSpanFold_eq t rest (stepLine s) (stepEndLine s) hl he]
    · rw [frameSpanFold_cons_skip (eq_false_of_ne_true hm),
        List.filter_cons_of_neg (by simpa using hm), ih]

/-! ### The claims -/

/-- Claim C1: on any trace whose source pcs are non-decreasing (and whose
opcode sequence is non-empty, so the clamped opcode step at the queried
index exists), `sourceIndexFromOpcodeIndex` returns the index of the last
source step whose pc is at most the pc of the clamped opcode step; it
returns 0 when no source step qualifies, and 0 when the source sequence is
empty. -/
theorem C1_sourceIndex_last_le (st : AppState) (tr : Trace) (i : Int)
    (htr : st.trace = some tr)
    (hO : getOpcodeSteps (some tr) ≠ [])
    (hmono : ((getSourceSteps (some tr)).map Step.pc).Sorted (fun a b => a ≤ b)) :
    (getSourceSteps (some tr) = [] → sourceIndexFromOpcodeIndex st i = 0) ∧
    (getSourceSteps (some tr) ≠ [] →
      ((∃ j, j < (getSourceSteps (some tr)).length ∧
          pcAt (getSourceSteps (some tr)) j ≤ opcodeTargetPc tr i) →
        sourceIndexFromOpcodeIndex st i < (getSourceSteps (some tr)).length ∧
          pcAt (getSourceSteps (some tr)) (sourceIndexFromOpcodeIndex st i) ≤
            opcodeTargetPc tr i ∧
          ∀ j, j < (getSourceSteps (some tr)).length →
            pcAt (getSourceSteps (some tr)) j ≤ opcodeTargetPc tr i →
            j ≤ sourceIndexFromOpcodeIndex st i) ∧
      ((∀ j, j < (getSourceSteps (some tr)).length →
          opcodeTargetPc tr i < pcAt (getSourceSteps (some tr)) j) →
        sourceIndexFromOpcodeIndex st i = 0)) := by
  constructor
  · intro hS0
    unfold sourceIndexFromOpcodeIndex
    rw [htr]
    simp [hS0]
  · intro hS
    exact sifo_char st tr i htr hS hO hmono

/-- Witness for C1 on the documented scenario: opcode pcs 0..9, source pcs
0, 4, 8, queried at opcode index 6 (the answer is source index 1). -/
theorem C1_sourceIndex_last_le_witness :
    sourceIndexFromOpcodeIndex demoState 6 <
      (getSourceSteps (some demoTrace)).length ∧
    pcAt (getSourceSteps (some demoTrace)) (sourceIndexFromOpcodeIndex demoState 6) ≤
      opcodeTargetPc demoTrace 6 ∧
    ∀ j, j < (getSourceSteps (some demoTrace)).length →
      pcAt (getSourceSteps (some demoTrace)) j ≤ opcodeTargetPc demoTrace 6 →
      j ≤ sourceIndexFromOpcodeIndex demoState 6 :=
  ((C1_sourceIndex_last_le demoState demoTrace 6 rfl (by decide) (by decide)).2
    (by decide)).1 ⟨1, by decide, by decide⟩

/-- Helper: the full effect of `resetDbgCursor` on a loaded trace. -/
theorem resetDbgCursor_spec (st : AppState) (tr : Trace) (htr : st.trace = some tr) :
    (resetDbgCursor st).dbg.sourceStep = 0 ∧
    (resetDbgCursor st).dbg.mode =
      (if getSourceSteps (some tr) = [] then DbgMode.opcode else DbgMode.source) ∧
    (resetDbgCursor st).dbg.breakpoints = st.dbg.breakpoints ∧
    (resetDbgCursor st).dbg.opcodeStep =
      (if getSourceSteps (some tr) = [] ∨ getOpcodeSteps (some tr) = [] then 0
       else clamp (pcAt (getSourceSteps (some tr)) 0) 0
         (((getOpcodeSteps (some tr)).length : Int) - 1)) := by
  unfold resetDbgCursor
  rw [htr]
  by_cases hS : getSourceSteps (some tr) = []
  · have hSe : (getSourceSteps (some tr)).isEmpty = true := by rw [hS]; rfl
    simp only [hSe, Bool.true_or, if_true, if_pos hS, if_pos (Or.inl hS)]
    simp
  · have hSe : (getSourceSteps (some tr)).isEmpty = false := isEmpty_false_of_ne_nil hS
    by_cases hOp : getOpcodeSteps (some tr) = []
    · have hOe : (getOpcodeSteps (some tr)).isEmpty = true := by rw [hOp]; rfl
      simp only [hSe, hOe, Bool.false_or, if_true, if_neg hS, if_pos (Or.inr hOp)]
      simp [hSe]
    · have hOe : (getOpcodeSteps (some tr)).isEmpty = false := isEmpty_false_of_ne_nil hOp
      have hor : ¬ (getSourceSteps (some tr) = [] ∨ getOpcodeSteps (some tr) = []) := by
        rintro (h | h)
        · exact hS h
        · exact hOp h
      simp only [hSe, hOe, Bool.or_self, Bool.false_eq_true, if_false,
        if_neg hS, if_neg hor]
      have hlenS := one_le_length_int hS
      have htr1 : (AppState.mk (some tr)
          (Dbg.mk DbgMode.source 0 0 st.dbg.breakpoints)).trace = some tr := rfl
      rw [syncOpcodeFromSource_post htr1 hS hOp]
      refine ⟨rfl, rfl, rfl, ?_⟩
      show clamp (pcAt (getSourceSteps (some tr))
          (clamp (0 : Int) 0 (((getSourceSteps (some tr)).length : Int) - 1)).toNat) 0
          (((getOpcodeSteps (some tr)).length : Int) - 1) = _
      have hin : clamp (0 : Int) 0 (((getSourceSteps (some tr)).length : Int) - 1) = 0 :=
        clamp_of_le (le_refl 0) (by omega)
      rw [hin]
      rfl

/-- Claim C2 (amended): installing a trace resets the source index to 0 and
the opcode index to 0, and then, when both sequences are non-empty,
re-synchronizes the opcode index to the clamped pc of the first source step
(so it is 0 only when that pc clamps to 0); the mode becomes source exactly
when source steps exist, and the breakpoint set is unchanged. -/
theorem C2_loadTrace_reset (st : AppState) (tr : Trace) :
    (loadTrace st tr).dbg.sourceStep = 0 ∧
    (loadTrace st tr).dbg.mode =
      (if getSourceSteps (some tr) = [] then DbgMode.opcode else DbgMode.source) ∧
    (loadTrace st tr).dbg.breakpoints = st.dbg.breakpoints ∧
    (loadTrace st tr).dbg.opcodeStep =
      (if getSourceSteps (some tr) = [] ∨ getOpcodeSteps (some tr) = [] then 0
       else clamp (pcAt (getSourceSteps (some tr)) 0) 0
         (((getOpcodeSteps (some tr)).length : Int) - 1)) :=
  resetDbgCursor_spec { st with trace := some tr } tr rfl

/-- Counterexample to C2 as frozen: loading a trace whose first source step
has pc 1 leaves the opcode index at 1, not 0. -/
theorem C2_counterexample :
    ¬ (loadTrace cexResetState cexResetTrace).dbg.opcodeStep = 0 := by decide

/-- Claim C3: on a non-empty source-step list with an in-range start, Step
Over returns the smallest index after the start whose call depth does not
exceed the starting depth; when no such index exists it returns the final
index, and no index strictly between start and result has depth at or below
the starting depth. -/
theorem C3_stepOver_first_at_or_above (steps : List Step) (idx : Nat)
    (hne : steps ≠ []) (hidx : idx < steps.length) :
    ((∃ j, idx < j ∧ j < steps.length ∧ depthAt steps j ≤ depthAt steps idx) →
      idx < sourceStepOverIndex steps idx ∧
        sourceStepOverIndex steps idx < steps.length ∧
        depthAt steps (sourceStepOverIndex steps idx) ≤ depthAt steps idx ∧
        ∀ k, idx < k → k < sourceStepOverIndex steps idx →
          depthAt steps idx < depthAt steps k) ∧
    ((∀ j, idx < j → j < steps.length → depthAt steps idx < depthAt steps j) →
      sourceStepOverIndex steps idx = steps.length - 1) := by
  have hr : sourceStepOverIndex steps idx =
      scanForward (fun s => decide (stepDepth (some s) ≤ depthAt steps idx))
        steps idx := rfl
  constructor
  · rintro ⟨j, hj1, hj2, hj3⟩
    have hex : ∃ j, idx < j ∧ j < steps.length ∧
        decide (stepDepth (some (steps.getD j default)) ≤ depthAt steps idx) = true := by
      refine ⟨j, hj1, hj2, ?_⟩
      rw [decide_eq_true_eq, ← depthAt_eq hj2]
      exact hj3
    obtain ⟨g1, g2, g3, g4⟩ := @scanForward_found
      (fun s => decide (stepDepth (some s) ≤ depthAt steps idx)) steps idx hex
    rw [← hr] at g1 g2 g3 g4
    refine ⟨g1, g2, ?_, ?_⟩
    · rw [depthAt_eq g2]
      exact of_decide_eq_true g3
    · intro k hk1 hk2
      have hk3 : k < steps.length := by
        have := sourceStepOverIndex_lt idx hne
        omega
      have := g4 k hk1 hk2
      rw [decide_eq_false_iff_not, ← depthAt_eq hk3] at this
      omega
  · intro hall
    rw [hr]
    apply scanForward_not_found
    intro j hj1 hj2
    rw [decide_eq_false_iff_not, ← depthAt_eq hj2]
    have := hall j hj1 hj2
    omega

/-- Witness for C3: depths 0,1,1,2,0 — Step Over from index 1 (depth 1)
lands on index 2, the first subsequent depth at or below 1. -/
theorem C3_stepOver_witness :
    1 < sourceStepOverIndex depthSteps 1 ∧
      sourceStepOverIndex depthSteps 1 < depthSteps.length ∧
      depthAt depthSteps (sourceStepOverIndex depthSteps 1) ≤ depthAt depthSteps 1 ∧
      ∀ k, 1 < k → k < sourceStepOverIndex depthSteps 1 →
        depthAt depthSteps 1 < depthAt depthSteps k :=
  (C3_stepOver_first_at_or_above depthSteps 1 (by decide) (by decide)).1
    ⟨2, by decide, by decide, by decide⟩

/-- Claim C4: on a non-empty source-step list with an in-range start, Step
Out returns the smallest subsequent index whose depth is strictly below the
starting depth, falling back to the final index when none exists; it never
returns an index at or above the starting depth other than that fallback. -/
theorem C4_stepOut_first_shallower (steps : List Step) (idx : Nat)
    (hne : steps ≠ []) (hidx : idx < steps.length) :
    ((∃ j, idx < j ∧ j < steps.length ∧ depthAt steps j < depthAt steps idx) →
      idx < sourceStepOutIndex steps idx ∧
        sourceStepOutIndex steps idx < steps.length ∧
        depthAt steps (sourceStepOutIndex steps idx) < depthAt steps idx ∧
        ∀ k, idx < k → k < sourceStepOutIndex steps idx →
          depthAt steps idx ≤ depthAt steps k) ∧
    ((∀ j, idx < j → j < steps.length → depthAt steps idx ≤ depthAt steps j) →
      sourceStepOutIndex steps idx = steps.length - 1) := by
  have hr : sourceStepOutIndex steps idx =
      scanForward (fun s => decide (stepDepth (some s) < depthAt steps idx))
        steps idx := rfl
  constructor
  · rintro ⟨j, hj1, hj2, hj3⟩
    have hex : ∃ j, idx < j ∧ j < steps.length ∧
        decide (stepDepth (some (steps.getD j default)) < depthAt steps idx) = true := by
      refine ⟨j, hj1, hj2, ?_⟩
      rw [decide_eq_true_eq, ← depthAt_eq hj2]
      exact hj3
    obtain ⟨g1, g2, g3, g4⟩ := @scanForward_found
      (fun s => decide (stepDepth (some s) < depthAt steps idx)) steps idx hex
    rw [← hr] at g1 g2 g3 g4
    refine ⟨g1, g2, ?_, ?_⟩
    · rw [depthAt_eq g2]
      exact of_decide_eq_true g3
    · intro k hk1 hk2
      have hk3 : k < steps.length := by
        have := sourceStepOutIndex_lt idx hne
        omega
      have := g4 k hk1 hk2
      rw [decide_eq_false_iff_not, ← depthAt_eq hk3] at this
      omega
  · intro hall
    rw [hr]
    apply scanForward_not_found
    intro j hj1 hj2
    rw [decide_eq_false_iff_not, ← depthAt_eq hj2]
    have := hall j hj1 hj2
    omega

/-- Witness for C4: depths 0,1,1,2,0 — Step Out from index 2 (depth 1)
lands on index 4, the first strictly shallower step. -/
theorem C4_stepOut_witness :
    2 < sourceStepOutIndex depthSteps 2 ∧
      sourceStepOutIndex depthSteps 2 < depthSteps.length ∧
      depthAt depthSteps (sourceStepOutIndex depthSteps 2) < depthAt depthSteps 2 ∧
      ∀ k, 2 < k → k < sourceStepOutIndex depthSteps 2 →
        depthAt depthSteps 2 ≤ depthAt depthSteps k :=
  (C4_stepOut_first_shallower depthSteps 2 (by decide) (by decide)).1
    ⟨4, by decide, by decide, by decide⟩

/-- Claim C10: Step Over, Step Out and the continue-to-breakpoint search
never return an index below the in-range starting index — the source cursor
never moves backwards. -/
theorem C10_never_backwards (st : AppState) (tr : Trace) (idx : Nat)
    (htr : st.trace = some tr)
    (hS : getSourceSteps (some tr) ≠ [])
    (hidx : idx < (getSourceSteps (some tr)).length)
    (hmode : st.dbg.mode = DbgMode.source)
    (hcur : st.dbg.sourceStep = (idx : Int)) :
    idx ≤ sourceStepOverIndex (getSourceSteps (some tr)) idx ∧
      idx ≤ sourceStepOutIndex (getSourceSteps (some tr)) idx ∧
      idx ≤ (continueToBreakpoint st).1 := by
  refine ⟨scanForward_le hidx, scanForward_le hidx, ?_⟩
  have hm' : ¬ st.dbg.mode = DbgMode.opcode := by
    rw [hmode]
    intro h
    exact DbgMode.noConfusion h
  have hcl : clamp st.dbg.sourceStep 0
      (((getSourceSteps (some tr)).length : Int) - 1) = (idx : Int) := by
    rw [hcur]
    exact clamp_of_le (by omega) (by omega)
  have hval : (continueToBreakpoint st).1 =
      (if st.dbg.breakpoints.isEmpty then (getSourceSteps (some tr)).length - 1
       else scanForward (bpHit st.dbg.breakpoints) (getSourceSteps (some tr))
         (idx : Int).toNat) := by
    unfold continueToBreakpoint
    rw [htr]
    simp only [isEmpty_false_of_ne_nil hS, Bool.false_eq_true, if_false]
    rw [if_neg hm', hcl]
    split
    · rfl
    · rfl
  rw [hval]
  have htn : ((idx : Int)).toNat = idx := Int.toNat_natCast idx
  split
  · omega
  · rw [htn]
    exact scanForward_le hidx

/-- Witness for C10 on the depth scenario, starting at index 1. -/
theorem C10_never_backwards_witness :
    1 ≤ sourceStepOverIndex (getSourceSteps (some depthTrace)) 1 ∧
      1 ≤ sourceStepOutIndex (getSourceSteps (some depthTrace)) 1 ∧
      1 ≤ (continueToBreakpoint depthState).1 :=
  C10_never_backwards depthState depthTrace 1 rfl (by decide) (by decide)
    (by decide) (by decide)

/-- With only positive breakpoint lines (the program invariant: gutter
clicks reject line 0), the loop test of `continueToBreakpoint` is exactly
the claim's executing-step-with-breakpointed-line predicate. -/
theorem bpHit_iff {bps : List Nat} (hbp : ∀ L ∈ bps, 0 < L) (s : Step) :
    bpHit bps s = true ↔
      (s.isExecuting = true ∧ ∃ L, mappingLine s.mapping = some L ∧ L ∈ bps) := by
  unfold bpHit
  cases hml : mappingLine s.mapping with
  | none => simp
  | some l =>
    constructor
    · intro h
      simp only [Bool.and_eq_true, decide_eq_true_eq] at h
      obtain ⟨h1, _, h3⟩ := h
      exact ⟨h1, l, rfl, h3⟩
    · rintro ⟨h1, L, hL, h3⟩
      have hLl : L = l := by
        injection hL with h
        exact h.symm
      subst hLl
      have hpos := hbp L h3
      simp only [Bool.and_eq_true, decide_eq_true_eq]
      exact ⟨h1, by omega, h3⟩

/-- Claim C5: with the trace loaded, a non-empty source sequence, source
mode and an in-range current index — Continue returns the final index when
the breakpoint set is empty; otherwise the smallest later index whose step
is executing with a breakpointed mapped line, or the final index when no
such step exists. With an empty source sequence, Continue jumps the opcode
cursor to its last index (and opcode mode). -/
theorem C5_continue (st : AppState) (tr : Trace)
    (htr : st.trace = some tr)
    (hbp : ∀ L ∈ st.dbg.breakpoints, 0 < L) :
    (getSourceSteps (some tr) ≠ [] →
      st.dbg.mode = DbgMode.source →
      0 ≤ st.dbg.sourceStep →
      st.dbg.sourceStep < ((getSourceSteps (some tr)).length : Int) →
      ((st.dbg.breakpoints = [] →
        (continueToBreakpoint st).1 = (getSourceSteps (some tr)).length - 1) ∧
      (st.dbg.breakpoints ≠ [] →
        ((∃ k, st.dbg.sourceStep.toNat < k ∧
            k < (getSourceSteps (some tr)).length ∧
            isHit st.dbg.breakpoints (getSourceSteps (some tr)) k) →
          st.dbg.sourceStep.toNat < (continueToBreakpoint st).1 ∧
            (continueToBreakpoint st).1 < (getSourceSteps (some tr)).length ∧
            isHit st.dbg.breakpoints (getSourceSteps (some tr))
              (continueToBreakpoint st).1 ∧
            ∀ k, st.dbg.sourceStep.toNat < k → k < (continueToBreakpoint st).1 →
              ¬ isHit st.dbg.breakpoints (getSourceSteps (some tr)) k) ∧
        ((∀ k, st.dbg.sourceStep.toNat < k →
            k < (getSourceSteps (some tr)).length →
            ¬ isHit st.dbg.breakpoints (getSourceSteps (some tr)) k) →
          (continueToBreakpoint st).1 = (getSourceSteps (some tr)).length - 1)))) ∧
    (getSourceSteps (some tr) = [] → getOpcodeSteps (some tr) ≠ [] →
      (continueExecution st).dbg.opcodeStep =
        ((getOpcodeSteps (some tr)).length : Int) - 1 ∧
      (continueExecution st).dbg.mode = DbgMode.opcode) := by
  constructor
  · intro hS hmode h0 hlt
    have hm' : ¬ st.dbg.mode = DbgMode.opcode := by
      rw [hmode]
      intro h
      exact DbgMode.noConfusion h
    have hcl : clamp st.dbg.sourceStep 0
        (((getSourceSteps (some tr)).length : Int) - 1) = st.dbg.sourceStep :=
      clamp_of_le h0 (by omega)
    have hval : (continueToBreakpoint st).1 =
        (if st.dbg.breakpoints.isEmpty then (getSourceSteps (some tr)).length - 1
         else scanForward (bpHit st.dbg.breakpoints) (getSourceSteps (some tr))
           st.dbg.sourceStep.toNat) := by
      unfold continueToBreakpoint
      rw [htr]
      simp only [isEmpty_false_of_ne_nil hS, Bool.false_eq_true, if_false]
      rw [if_neg hm', hcl]
      split
      · rfl
      · rfl
    refine ⟨?_, ?_⟩
    · intro hbe
      rw [hval, if_pos (by rw [hbe]; rfl)]
    · intro hbne
      have hbef : st.dbg.breakpoints.isEmpty = false := isEmpty_false_of_ne_nil hbne
      rw [hval, if_neg (by rw [hbef]; exact Bool.false_ne_true)]
      constructor
      · rintro ⟨k, hk1, hk2, hk3⟩
        have hex : ∃ k, st.dbg.sourceStep.toNat < k ∧
            k < (getSourceSteps (some tr)).length ∧
            bpHit st.dbg.breakpoints
              ((getSourceSteps (some tr)).getD k default) = true :=
          ⟨k, hk1, hk2, (bpHit_iff hbp _).mpr hk3⟩
        obtain ⟨g1, g2, g3, g4⟩ := @scanForward_found (bpHit st.dbg.breakpoints)
          (getSourceSteps (some tr)) st.dbg.sourceStep.toNat hex
        refine ⟨g1, g2, (bpHit_iff hbp _).mp g3, ?_⟩
        intro k' hk1' hk2' hhit
        have hfalse := g4 k' hk1' hk2'
        have htrue := (bpHit_iff hbp _).mpr hhit
        rw [hfalse] at htrue
        exact Bool.false_ne_true htrue
      · intro hall
        apply scanForward_not_found
        intro j hj1 hj2
        have hnot : ¬ bpHit st.dbg.breakpoints
            ((getSourceSteps (some tr)).getD j default) = true :=
          fun h => hall j hj1 hj2 ((bpHit_iff hbp _).mp h)
        exact eq_false_of_ne_true hnot
  · intro hS0 hOne
    have hSe : (getSourceSteps (some tr)).isEmpty = true := by rw [hS0]; rfl
    have hlen := one_le_length_int hOne
    unfold continueExecution
    rw [htr]
    simp only [hSe, if_true]
    constructor
    · show max 0 (((getOpcodeSteps (some tr)).length : Int) - 1) = _
      omega
    · trivial

/-- Witness for C5: three executing source steps on lines 1..3, a
breakpoint on line 3 — Continue from index 0 stops at index 2. -/
theorem C5_continue_witness :
    (0 : Int).toNat < (continueToBreakpoint bpState).1 ∧
      (continueToBreakpoint bpState).1 < (getSourceSteps (some bpTrace)).length ∧
      isHit [3] (getSourceSteps (some bpTrace)) (continueToBreakpoint bpState).1 ∧
      ∀ k, (0 : Int).toNat < k → k < (continueToBreakpoint bpState).1 →
        ¬ isHit [3] (getSourceSteps (some bpTrace)) k :=
  (((C5_continue bpState bpTrace rfl (by decide)).1 (by decide) rfl (by decide)
    (by decide)).2 (by decide)).1
    ⟨2, by decide, by decide, by decide, 3, by decide, by decide⟩

/-- Claim C6: on a trace with both sequences non-empty (and the documented
non-decreasing-pc invariant), every stepping operation leaves the two
indices synchronized: the source-granularity operations and Continue leave
the opcode index equal to the clamped pc of the current source step, and
the opcode operation leaves the source index at the last source index whose
pc is at most the pc of the current opcode step (0 when none qualifies). -/
theorem C6_indices_synchronized (st : AppState) (tr : Trace)
    (htr : st.trace = some tr)
    (hS : getSourceSteps (some tr) ≠ [])
    (hO : getOpcodeSteps (some tr) ≠ [])
    (hmono : ((getSourceSteps (some tr)).map Step.pc).Sorted (fun a b => a ≤ b)) :
    (∀ st', (st' = stepIntoSource st ∨ st' = stepOverSource st ∨
        st' = stepOutSource st ∨ st' = continueExecution st) →
      0 ≤ st'.dbg.sourceStep ∧
        st'.dbg.sourceStep < ((getSourceSteps (some tr)).length : Int) ∧
        st'.dbg.opcodeStep =
          clamp (pcAt (getSourceSteps (some tr)) st'.dbg.sourceStep.toNat) 0
            (((getOpcodeSteps (some tr)).length : Int) - 1)) ∧
    (∀ delta : Int,
      0 ≤ (stepOpcode st delta).dbg.opcodeStep ∧
      (stepOpcode st delta).dbg.opcodeStep <
        ((getOpcodeSteps (some tr)).length : Int) ∧
      0 ≤ (stepOpcode st delta).dbg.sourceStep ∧
      ((∃ j, j < (getSourceSteps (some tr)).length ∧
          pcAt (getSourceSteps (some tr)) j ≤
            pcAt (getOpcodeSteps (some tr))
              (stepOpcode st delta).dbg.opcodeStep.toNat) →
        (stepOpcode st delta).dbg.sourceStep.toNat <
            (getSourceSteps (some tr)).length ∧
          pcAt (getSourceSteps (some tr))
              (stepOpcode st delta).dbg.sourceStep.toNat ≤
            pcAt (getOpcodeSteps (some tr))
              (stepOpcode st delta).dbg.opcodeStep.toNat ∧
          ∀ j, j < (getSourceSteps (some tr)).length →
            pcAt (getSourceSteps (some tr)) j ≤
              pcAt (getOpcodeSteps (some tr))
                (stepOpcode st delta).dbg.opcodeStep.toNat →
            j ≤ (stepOpcode st delta).dbg.sourceStep.toNat) ∧
      ((∀ j, j < (getSourceSteps (some tr)).length →
          pcAt (getOpcodeSteps (some tr))
            (stepOpcode st delta).dbg.opcodeStep.toNat <
            pcAt (getSourceSteps (some tr)) j) →
        (stepOpcode st delta).dbg.sourceStep = 0)) := by
  constructor
  · intro st' hd
    have hshape : ∃ n : Nat, n < (getSourceSteps (some tr)).length ∧
        st' = syncOpcodeFromSource (withSrcIdx st n) := by
      rcases hd with h | h | h | h
      · obtain ⟨n, hn, he⟩ := stepIntoSource_shape st tr htr hS
        exact ⟨n, hn, h.trans he⟩
      · obtain ⟨n, hn, he⟩ := stepOverSource_shape st tr htr hS
        exact ⟨n, hn, h.trans he⟩
      · obtain ⟨n, hn, he⟩ := stepOutSource_shape st tr htr hS
        exact ⟨n, hn, h.trans he⟩
      · obtain ⟨n, hn, he⟩ := continueExecution_shape st tr htr hS
        exact ⟨n, hn, h.trans he⟩
    obtain ⟨n, hn, he⟩ := hshape
    obtain ⟨e1, e2, e3⟩ := sync_withSrcIdx st tr n htr hS hO hn
    rw [he, e1, e3, Int.toNat_natCast]
    exact ⟨by omega, by omega, rfl⟩
  · intro delta
    obtain ⟨o, ho0, holt, he⟩ := stepOpcode_shape st tr htr hO delta
    rw [he]
    have htr2 : (withOpIdx st o).trace = some tr := htr
    have hop : (syncSourceFromOpcode (withOpIdx st o)).dbg.opcodeStep = o :=
      (syncSourceFromOpcode_fields (withOpIdx st o)).2.2.1
    have hsrc : (syncSourceFromOpcode (withOpIdx st o)).dbg.sourceStep =
        (sourceIndexFromOpcodeIndex (withOpIdx st o) o : Int) := by
      rw [syncSourceFromOpcode_post htr2 hS]
      rfl
    have hopc : opcodeTargetPc tr o = pcAt (getOpcodeSteps (some tr)) o.toNat := by
      unfold opcodeTargetPc
      rw [clamp_of_le ho0 (by omega)]
    obtain ⟨char1, char2⟩ := sifo_char (withOpIdx st o) tr o htr2 hS hO hmono
    rw [hop, hsrc]
    refine ⟨ho0, holt, by omega, ?_, ?_⟩
    · intro hex
      rw [Int.toNat_natCast]
      have h1 := char1 (by rw [hopc]; exact hex)
      rw [hopc] at h1
      exact h1
    · intro hall
      have h2 := char2 (by rw [hopc]; exact hall)
      rw [h2]
      rfl

/-- Witness for C6 on the documented trace: after Step Into, the opcode
index equals the clamped pc of the current source step. -/
theorem C6_indices_synchronized_witness :
    (stepIntoSource demoState).dbg.opcodeStep =
      clamp (pcAt (getSourceSteps (some demoTrace))
        (stepIntoSource demoState).dbg.sourceStep.toNat) 0
        (((getOpcodeSteps (some demoTrace)).length : Int) - 1) :=
  ((C6_indices_synchronized demoState demoTrace rfl (by decide) (by decide)
    (by decide)).1 (stepIntoSource demoState) (Or.inl rfl)).2.2

/-- Claim C7 (amended): on a trace whose opcode pcs equal their indices and
whose source pcs are non-decreasing, converting an in-range opcode index to
a source index and back (via the clamp of that source step's pc, as
`syncOpcodeFromSource` does) yields an opcode index at most the original —
provided at least one source step has pc at most the original index. When
every source pc exceeds it, the scan falls back to source index 0 and the
round trip lands on the clamp of the first source pc, which can exceed the
original index. -/
theorem C7_roundTrip_le (st : AppState) (tr : Trace) (i : Int)
    (htr : st.trace = some tr)
    (hpc : ∀ k, k < (getOpcodeSteps (some tr)).length →
      pcAt (getOpcodeSteps (some tr)) k = (k : Int))
    (hmono : ((getSourceSteps (some tr)).map Step.pc).Sorted (fun a b => a ≤ b))
    (h0 : 0 ≤ i) (hi : i < ((getOpcodeSteps (some tr)).length : Int))
    (hex : ∃ j, j < (getSourceSteps (some tr)).length ∧
      pcAt (getSourceSteps (some tr)) j ≤ i) :
    (syncOpcodeFromSource { st with dbg := { st.dbg with
        sourceStep := (sourceIndexFromOpcodeIndex st i : Int) } }).dbg.opcodeStep
      ≤ i := by
  obtain ⟨j0, hj0, hle0⟩ := hex
  have hS : getSourceSteps (some tr) ≠ [] := by
    intro h
    rw [h] at hj0
    simp at hj0
  have hO : getOpcodeSteps (some tr) ≠ [] := by
    intro h
    rw [h] at hi
    simp at hi
    omega
  have hlenS := one_le_length_int hS
  have hlenO := one_le_length_int hO
  have hopc : opcodeTargetPc tr i = i := by
    unfold opcodeTargetPc
    rw [clamp_of_le h0 (by omega), hpc i.toNat (by omega)]
    omega
  obtain ⟨char1, _⟩ := sifo_char st tr i htr hS hO hmono
  obtain ⟨hr1, hr2, _⟩ := char1 ⟨j0, hj0, by rw [hopc]; exact hle0⟩
  rw [hopc] at hr2
  have htr1 : (AppState.mk st.trace (Dbg.mk st.dbg.mode
      ((sourceIndexFromOpcodeIndex st i : Int)) st.dbg.opcodeStep
      st.dbg.breakpoints)).trace = some tr := htr
  rw [syncOpcodeFromSource_post htr1 hS hO]
  show clamp (pcAt (getSourceSteps (some tr))
      (clamp ((sourceIndexFromOpcodeIndex st i : Int)) 0
        (((getSourceSteps (some tr)).length : Int) - 1)).toNat) 0
      (((getOpcodeSteps (some tr)).length : Int) - 1) ≤ i
  have hin : clamp ((sourceIndexFromOpcodeIndex st i : Int)) 0
      (((getSourceSteps (some tr)).length : Int) - 1) =
      (sourceIndexFromOpcodeIndex st i : Int) :=
    clamp_of_le (by omega) (by omega)
  rw [hin, Int.toNat_natCast]
  unfold clamp
  omega

/-- Witness for C7 on the documented trace at opcode index 6: the round
trip lands on opcode index 4, which is at most 6. -/
theorem C7_roundTrip_le_witness :
    (syncOpcodeFromSource { demoState with dbg := { demoState.dbg with
        sourceStep := (sourceIndexFromOpcodeIndex demoState 6 : Int) } }).dbg.opcodeStep
      ≤ 6 :=
  C7_roundTrip_le demoState demoTrace 6 rfl (by decide) (by decide) (by decide)
    (by decide) ⟨0, by decide, by decide⟩

/-- Counterexample to C7 as frozen: opcode pcs equal their indices, the
only source step has pc 5 — from opcode index 0 the round trip yields
opcode index 5, which exceeds 0, because no source step has pc at most 0. -/
theorem C7_counterexample :
    (∀ k, k < (getOpcodeSteps (some cexRoundTrace)).length →
      pcAt (getOpcodeSteps (some cexRoundTrace)) k = (k : Int)) ∧
    ((getSourceSteps (some cexRoundTrace)).map Step.pc).Sorted (fun a b => a ≤ b) ∧
    ¬ ((syncOpcodeFromSource { cexRoundState with dbg := { cexRoundState.dbg with
        sourceStep := (sourceIndexFromOpcodeIndex cexRoundState 0 : Int) } }).dbg.opcodeStep
      ≤ 0) := by
  refine ⟨?_, by decide, by decide⟩
  decide

/-- `setActiveStepIndex` never touches the trace or the mode. -/
theorem setActiveStepIndex_fields (st : AppState) (k : Int) :
    (setActiveStepIndex st k).trace = st.trace ∧
      (setActiveStepIndex st k).dbg.mode = st.dbg.mode := by
  unfold setActiveStepIndex
  split
  · exact ⟨rfl, rfl⟩
  · exact ⟨rfl, rfl⟩

/-- `getActiveSteps` only reads the trace and the mode. -/
theorem getActiveSteps_congr (st st' : AppState)
    (h1 : st'.trace = st.trace) (h2 : st'.dbg.mode = st.dbg.mode) :
    getActiveSteps st' = getActiveSteps st := by
  unfold getActiveSteps
  rw [h1, h2]

/-- The active index is always clamped into the valid range. -/
theorem getActiveStepIndex_bounds (st : AppState) (steps : List Step) :
    0 ≤ getActiveStepIndex st steps ∧
      getActiveStepIndex st steps ≤ max 0 ((steps.length : Int) - 1) := by
  unfold getActiveStepIndex
  split
  · exact ⟨clamp_lo_le (by omega), clamp_le_hi (by omega)⟩
  · exact ⟨clamp_lo_le (by omega), clamp_le_hi (by omega)⟩

/-- Reading back after the write-back returns the written index. -/
theorem getActiveStepIndex_set (st : AppState) (steps : List Step) (k : Int)
    (hb1 : 0 ≤ k) (hb2 : k ≤ max 0 ((steps.length : Int) - 1)) :
    getActiveStepIndex (setActiveStepIndex st k) steps = k := by
  unfold getActiveStepIndex setActiveStepIndex
  by_cases hm : st.dbg.mode = DbgMode.opcode
  · rw [if_pos hm]
    rw [if_pos (show (AppState.mk st.trace (Dbg.mk st.dbg.mode st.dbg.sourceStep k
      st.dbg.breakpoints)).dbg.mode = DbgMode.opcode from hm)]
    exact clamp_of_le hb1 hb2
  · rw [if_neg hm]
    rw [if_neg (show ¬ (AppState.mk st.trace (Dbg.mk st.dbg.mode k st.dbg.opcodeStep
      st.dbg.breakpoints)).dbg.mode = DbgMode.opcode from hm)]
    exact clamp_of_le hb1 hb2

/-- Claim C9 (amended): active-index resolution clamps into range and
writes the clamp back, so a second read is stable; with no trace loaded
every stepping operation is a no-op, and with the relevant sequence empty
the source operations and the opcode operation are no-ops — but Continue,
with an empty source sequence, is not a no-op: it forces opcode mode and
jumps the opcode cursor to `max 0 (len-1)`. -/
theorem C9_clamp_and_noop (st : AppState) :
    (getActiveSteps st ≠ [] →
      0 ≤ getActiveStepIndex st (getActiveSteps st) ∧
      getActiveStepIndex st (getActiveSteps st) <
        ((getActiveSteps st).length : Int) ∧
      getActiveSteps (activeSnapshot st).2 = getActiveSteps st ∧
      getActiveStepIndex (activeSnapshot st).2 (getActiveSteps st) =
        getActiveStepIndex st (getActiveSteps st)) ∧
    (st.trace = none →
      stepIntoSource st = st ∧ stepOverSource st = st ∧ stepOutSource st = st ∧
      (∀ delta, stepOpcode st delta = st) ∧ continueExecution st = st) ∧
    (∀ tr, st.trace = some tr → getSourceSteps (some tr) = [] →
      stepIntoSource st = st ∧ stepOverSource st = st ∧ stepOutSource st = st) ∧
    (∀ tr, st.trace = some tr → getOpcodeSteps (some tr) = [] →
      ∀ delta, stepOpcode st delta = st) ∧
    (∀ tr, st.trace = some tr → getSourceSteps (some tr) = [] →
      continueExecution st = { st with dbg := { st.dbg with
        mode := DbgMode.opcode,
        opcodeStep := max 0 (((getOpcodeSteps (some tr)).length : Int) - 1) } }) := by
  refine ⟨?_, ?_, ?_, ?_, ?_⟩
  · intro hne
    have hlen := List.length_pos.mpr hne
    obtain ⟨hb1, hb2⟩ := getActiveStepIndex_bounds st (getActiveSteps st)
    have hsnd : (activeSnapshot st).2 =
        setActiveStepIndex st (getActiveStepIndex st (getActiveSteps st)) := by
      unfold activeSnapshot
      simp only [isEmpty_false_of_ne_nil hne, Bool.false_eq_true, if_false]
    obtain ⟨f1, f2⟩ :=
      setActiveStepIndex_fields st (getActiveStepIndex st (getActiveSteps st))
    refine ⟨hb1, by omega, ?_, ?_⟩
    · rw [hsnd]
      exact getActiveSteps_congr st _ f1 f2
    · rw [hsnd]
      exact getActiveStepIndex_set st (getActiveSteps st) _ hb1 hb2
  · intro h0
    refine ⟨?_, ?_, ?_, ?_, ?_⟩
    · unfold stepIntoSource
      rw [h0]
    · unfold stepOverSource
      rw [h0]
    · unfold stepOutSource
      rw [h0]
    · intro delta
      unfold stepOpcode
      rw [h0]
    · unfold continueExecution
      rw [h0]
  · intro tr htr hS0
    have hSe : (getSourceSteps (some tr)).isEmpty = true := by rw [hS0]; rfl
    refine ⟨?_, ?_, ?_⟩
    · unfold stepIntoSource
      rw [htr]
      simp only [hSe, if_true]
    · unfold stepOverSource
      rw [htr]
      simp only [hSe, if_true]
    · unfold stepOutSource
      rw [htr]
      simp only [hSe, if_true]
  · intro tr htr hO0 delta
    have hOe : (getOpcodeSteps (some tr)).isEmpty = true := by rw [hO0]; rfl
    unfold stepOpcode
    rw [htr]
    simp only [hOe, if_true]
  · intro tr htr hS0
    have hSe : (getSourceSteps (some tr)).isEmpty = true := by rw [hS0]; rfl
    unfold continueExecution
    rw [htr]
    simp only [hSe, if_true]

/-- Witness for C9 on the documented trace: the active index is in range
and the write-back is read-stable. -/
theorem C9_clamp_and_noop_witness :
    0 ≤ getActiveStepIndex demoState (getActiveSteps demoState) ∧
      getActiveStepIndex demoState (getActiveSteps demoState) <
        ((getActiveSteps demoState).length : Int) ∧
      getActiveSteps (activeSnapshot demoState).2 = getActiveSteps demoState ∧
      getActiveStepIndex (activeSnapshot demoState).2 (getActiveSteps demoState) =
        getActiveStepIndex demoState (getActiveSteps demoState) :=
  (C9_clamp_and_noop demoState).1 (by decide)

/-- Counterexample to C9 as frozen: with a trace loaded whose sequences are
both empty, Continue still mutates the cursor (mode and opcode index), so
it is not a no-op. -/
theorem C9_counterexample :
    getSourceSteps cexContinueState.trace = [] ∧
      getOpcodeSteps cexContinueState.trace = [] ∧
      continueExecution cexContinueState ≠ cexContinueState := by decide

/-- Claim C8: with a trace and an active step, a non-none tint kind targets
frame 0 for pass and the step's own frame id otherwise; the frame span is
the minimal line interval covering the spans of all matching
source-sequence steps, and when no step matches no tint is derived. -/
theorem C8_frame_tint (st : AppState) (tr : Trace) (snap : Step) (kind : TintKind)
    (htr : st.trace = some tr)
    (t : Option Int)
    (ht : t = (if kind = TintKind.pass then some 0 else frameIdFromStep (some snap))) :
    (matchingOf tr t = [] →
      updateEditorDecorationsTint st (some snap) (some kind) = (none, none)) ∧
    (matchingOf tr t ≠ [] →
      ∃ fs, updateEditorDecorationsTint st (some snap) (some kind) =
          (some fs, some kind) ∧
        (∀ s ∈ matchingOf tr t,
          fs.startLine ≤ stepLine s ∧ stepEndLine s ≤ fs.endLine) ∧
        (∃ s ∈ matchingOf tr t, stepLine s = fs.startLine) ∧
        (∃ s ∈ matchingOf tr t, stepEndLine s = fs.endLine)) := by
  have hval : updateEditorDecorationsTint st (some snap) (some kind) =
      (match frameSpanForFrame (getSourceSteps (some tr)) t with
       | none => (none, none)
       | some fs => (some fs, some kind)) := by
    rw [ht]
    unfold updateEditorDecorationsTint
    rw [htr]
  cases t with
  | none =>
    constructor
    · intro _
      rw [hval]
      rfl
    · intro hne
      exact absurd rfl hne
  | some tv =>
    have hm : matchingOf tr (some tv) =
        (getSourceSteps (some tr)).filter (stepMatchesFrame tv) := rfl
    cases hf : (getSourceSteps (some tr)).filter (stepMatchesFrame tv) with
    | nil =>
      constructor
      · intro _
        have hunf : frameSpanForFrame (getSourceSteps (some tr)) (some tv) =
            (if (frameSpanFold (getSourceSteps (some tr)) tv 0 0).1 = 0 ||
                (frameSpanFold (getSourceSteps (some tr)) tv 0 0).2 = 0 then none
             else some ⟨(frameSpanFold (getSourceSteps (some tr)) tv 0 0).1,
               (frameSpanFold (getSourceSteps (some tr)) tv 0 0).2⟩) := rfl
        have hnone : frameSpanForFrame (getSourceSteps (some tr)) (some tv) = none := by
          rw [hunf, frameSpanFold_zero tv, hf]
          rfl
        rw [hval, hnone]
      · intro hne
        rw [hm, hf] at hne
        exact absurd rfl hne
    | cons x rest =>
      have hpred : ∀ y ∈ x :: rest, stepMatchesFrame tv y = true := by
        intro y hy
        rw [← hf] at hy
        exact (List.mem_filter.mp hy).2
      have hxpos := matches_pos (hpred x (List.mem_cons_self x rest))
      have ha : 0 < rest.foldl (fun c y => min c (stepLine y)) (stepLine x) := by
        rcases foldlMin_attained stepLine rest (stepLine x) with h | ⟨y, hy, h⟩
        · rw [h]
          exact hxpos.1
        · rw [h]
          exact (matches_pos (hpred y (List.mem_cons_of_mem x hy))).1
      have hb : 0 < rest.foldl (fun c y => max c (stepEndLine y)) (stepEndLine x) := by
        have := foldlMax_init_le stepEndLine rest (stepEndLine x)
        have := hxpos.2
        omega
      have hunf : frameSpanForFrame (getSourceSteps (some tr)) (some tv) =
          (if (frameSpanFold (getSourceSteps (some tr)) tv 0 0).1 = 0 ||
              (frameSpanFold (getSourceSteps (some tr)) tv 0 0).2 = 0 then none
           else some ⟨(frameSpanFold (getSourceSteps (some tr)) tv 0 0).1,
             (frameSpanFold (getSourceSteps (some tr)) tv 0 0).2⟩) := rfl
      have hcond : ¬ ((frameSpanFold (getSourceSteps (some tr)) tv 0 0).1 = 0 ||
          (frameSpanFold (getSourceSteps (some tr)) tv 0 0).2 = 0) = true := by
        rw [frameSpanFold_zero tv, hf]
        simp only [Bool.or_eq_true, decide_eq_true_eq]
        omega
      have hspan : frameSpanForFrame (getSourceSteps (some tr)) (some tv) =
          some ⟨rest.foldl (fun c y => min c (stepLine y)) (stepLine x),
            rest.foldl (fun c y => max c (stepEndLine y)) (stepEndLine x)⟩ := by
        rw [hunf, if_neg hcond, frameSpanFold_zero tv, hf]
      constructor
      · intro he
        rw [hm, hf] at he
        exact absurd he (by simp)
      · intro _
        refine ⟨⟨rest.foldl (fun c y => min c (stepLine y)) (stepLine x),
          rest.foldl (fun c y => max c (stepEndLine y)) (stepEndLine x)⟩,
          ?_, ?_, ?_, ?_⟩
        · rw [hval, hspan]
        · intro y hy
          rw [hm, hf] at hy
          rcases List.mem_cons.mp hy with rfl | hy'
          · exact ⟨foldlMin_le_init stepLine rest (stepLine y),
              foldlMax_init_le stepEndLine rest (stepEndLine y)⟩
          · exact ⟨foldlMin_le_mem stepLine rest (stepLine x) y hy',
              foldlMax_mem_le stepEndLine rest (stepEndLine x) y hy'⟩
        · rcases foldlMin_attained stepLine rest (stepLine x) with h | ⟨y, hy, h⟩
          · refine ⟨x, ?_, h.symm⟩
            rw [hm, hf]
            exact List.mem_cons_self x rest
          · refine ⟨y, ?_, h.symm⟩
            rw [hm, hf]
            exact List.mem_cons_of_mem x hy
        · rcases foldlMax_attained stepEndLine rest (stepEndLine x) with h | ⟨y, hy, h⟩
          · refine ⟨x, ?_, h.symm⟩
            rw [hm, hf]
            exact List.mem_cons_self x rest
          · refine ⟨y, ?_, h.symm⟩
            rw [hm, hf]
            exact List.mem_cons_of_mem x hy

/-- Witness for C8: fail tint on a step of frame 1, with frame-1 steps on
lines 2-3 and 5-6 — the derived span is minimal and covering. -/
theorem C8_frame_tint_witness :
    ∃ fs, updateEditorDecorationsTint frameState (some (wFrameStep 1 2 3))
        (some TintKind.fail) = (some fs, some TintKind.fail) ∧
      (∀ s ∈ matchingOf frameTrace (some 1),
        fs.startLine ≤ stepLine s ∧ stepEndLine s ≤ fs.endLine) ∧
      (∃ s ∈ matchingOf frameTrace (some 1), stepLine s = fs.startLine) ∧
      (∃ s ∈ matchingOf frameTrace (some 1), stepEndLine s = fs.endLine) :=
  (C8_frame_tint frameState frameTrace (wFrameStep 1 2 3) TintKind.fail rfl
    (some 1) (by decide)).2 (by decide)

end SilDebug
